import Mathlib

set_option maxRecDepth 8000

/-!
Verification development for the gmail-cleaner repository.

The Python sources (classifier.py, pending.py, gmail.py, types.py) are shallowly
embedded below.  Machine-level choices of the model:

* Python `dict` objects produced by `json.loads` are association lists whose
  insertion discipline (replace in place, else append) mirrors CPython dicts.
* `json.loads` is modelled faithfully for objects, arrays, strings (including
  `\uXXXX` escapes and surrogate pairs), integers, literals and whitespace; the
  exact *texts* of CPython error messages (with line/column information) are
  abstracted to short descriptive strings, which no claim depends on.
  Non-integer numbers keep their raw token; their float semantics are outside
  the model and outside every claim.
* A raised Python exception is modelled as `Except.error msg`; a caught one is
  handled exactly where the source catches it.
* `json.dump(data, f, indent=2)` (with the default `ensure_ascii=True`) is
  modelled by `dumpV`.
* `datetime.now().isoformat()` values are threaded as explicit string
  parameters, and `datetime.fromisoformat` is an explicit parameter
  `fromiso : String → Option String` (`none` models its `ValueError`).
* The inference backend `ollama.chat` is an explicit parameter
  `chat : String → String → Except String String` mapping (model, prompt) to
  either the reply content (the source's `response.get("message", {}).get("content", "")`)
  or the message of a raised exception.
-/

namespace GmailCleaner

/-! ## JSON values (results of Python `json.loads`) -/

mutual

inductive Json where
  | null
  | bool (b : Bool)
  | num (n : Int)
  | float (raw : String)
  | str (s : String)
  | arr (items : JArr)
  | obj (members : JObj)
deriving DecidableEq

inductive JArr where
  | nil
  | cons (hd : Json) (tl : JArr)
deriving DecidableEq

inductive JObj where
  | nil
  | cons (k : String) (v : Json) (tl : JObj)
deriving DecidableEq

end

def JArr.snoc : JArr → Json → JArr
  | .nil, v => .cons v .nil
  | .cons x tl, v => .cons x (JArr.snoc tl v)

def JArr.toList : JArr → List Json
  | .nil => []
  | .cons x tl => x :: JArr.toList tl

def JArr.ofList : List Json → JArr
  | [] => .nil
  | x :: r => .cons x (JArr.ofList r)

def JArr.append : JArr → JArr → JArr
  | .nil, ys => ys
  | .cons x tl, ys => .cons x (JArr.append tl ys)

/-- CPython dict assignment `d[k] = v`: replace in place if the key exists,
else append at the end. -/
def JObj.insert : JObj → String → Json → JObj
  | .nil, k, v => .cons k v .nil
  | .cons k' v' tl, k, v =>
      if k' = k then .cons k v tl else .cons k' v' (JObj.insert tl k v)

/-- CPython dict lookup `d.get(k)` (keys are unique after `insert`). -/
def JObj.get : JObj → String → Option Json
  | .nil, _ => none
  | .cons k' v tl, k => if k' = k then some v else JObj.get tl k

def JObj.keys : JObj → List String
  | .nil => []
  | .cons k _ tl => k :: JObj.keys tl

def JObj.ofList : List (String × Json) → JObj
  | [] => .nil
  | (k, v) :: r => .cons k v (JObj.ofList r)

def JObj.append : JObj → JObj → JObj
  | .nil, ys => ys
  | .cons k v tl, ys => .cons k v (JObj.append tl ys)

/-- Python type names, used in the messages of exceptions the model raises. -/
def pyTypeName : Json → String
  | .null => "NoneType"
  | .bool _ => "bool"
  | .num _ => "int"
  | .float _ => "float"
  | .str _ => "str"
  | .arr _ => "list"
  | .obj _ => "dict"

mutual

/-- Python `repr` of a `json.loads` value, as interpolated by f-strings for
containers.  The quoting of special characters inside string reprs is
abstracted (no claim exercises it). -/
def pyRepr : Json → String
  | .null => "None"
  | .bool true => "True"
  | .bool false => "False"
  | .num n => toString n
  | .float raw => raw
  | .str s => "'" ++ s ++ "'"
  | .arr xs => "[" ++ pyReprItems xs ++ "]"
  | .obj kvs => "\x7b" ++ pyReprMembers kvs ++ "\x7d"

def pyReprItems : JArr → String
  | .nil => ""
  | .cons x .nil => pyRepr x
  | .cons x tl => pyRepr x ++ ", " ++ pyReprItems tl

def pyReprMembers : JObj → String
  | .nil => ""
  | .cons k v .nil => "'" ++ k ++ "': " ++ pyRepr v
  | .cons k v tl => "'" ++ k ++ "': " ++ pyRepr v ++ ", " ++ pyReprMembers tl

end

/-- Python `str()` of a `json.loads` value (as interpolated by f-strings).
`str` of a non-integer number is approximated by its raw token. -/
def pyStr : Json → String
  | .null => "None"
  | .bool true => "True"
  | .bool false => "False"
  | .num n => toString n
  | .float raw => raw
  | .str s => s
  | .arr xs => pyRepr (.arr xs)
  | .obj kvs => pyRepr (.obj kvs)

/-- Python truthiness of a `json.loads` value (float truthiness approximated;
no claim exercises it). -/
def pyTruthy : Json → Bool
  | .null => false
  | .bool b => b
  | .num n => n ≠ 0
  | .float raw => raw ≠ "0.0"
  | .str s => s ≠ ""
  | .arr .nil => false
  | .arr _ => true
  | .obj .nil => false
  | .obj _ => true

/-! ## The parser: Python `json.loads` -/

/-- The whitespace characters skipped by the `json` module (`' \t\n\r'`). -/
def jsonWs (c : Char) : Bool :=
  c = ' ' ∨ c = '\t' ∨ c = '\n' ∨ c = '\r'

def skipWs : List Char → List Char
  | [] => []
  | c :: cs => if jsonWs c then skipWs cs else c :: cs

/-- Value of one hexadecimal digit (as accepted inside a `\uXXXX` escape). -/
def hexVal (c : Char) : Option Nat :=
  if 48 ≤ c.toNat ∧ c.toNat ≤ 57 then some (c.toNat - 48)
  else if 97 ≤ c.toNat ∧ c.toNat ≤ 102 then some (c.toNat - 87)
  else if 65 ≤ c.toNat ∧ c.toNat ≤ 70 then some (c.toNat - 55)
  else none

def hex4 (a b c d : Char) : Option Nat :=
  match hexVal a, hexVal b, hexVal c, hexVal d with
  | some va, some vb, some vc, some vd => some (((va * 16 + vb) * 16 + vc) * 16 + vd)
  | _, _, _, _ => none

/-- Scan the body of a JSON string (the opening quote already consumed),
CPython `py_scanstring` with `strict=True`.  A `\uXXXX` high surrogate
immediately followed by a `\uXXXX` low surrogate is combined; a lone
surrogate (which Python keeps as a lone surrogate code point) is
approximated by `Char.ofNat`, which no claim exercises.  One fuel unit is
spent per scanned item; callers pass `length + 1`, so exhaustion is
unreachable. -/
def parseStringBody : Nat → List Char → Except String (List Char × List Char)
  | 0, _ => .error "Unterminated string"
  | _ + 1, [] => .error "Unterminated string"
  | fuel + 1, c :: rest =>
    if c = '"' then .ok ([], rest)
    else if c = '\\' then
      match rest with
      | [] => .error "Unterminated string"
      | e :: r =>
        if e = '"' then (parseStringBody fuel r).map (fun p => ('"' :: p.1, p.2))
        else if e = '\\' then (parseStringBody fuel r).map (fun p => ('\\' :: p.1, p.2))
        else if e = '/' then (parseStringBody fuel r).map (fun p => ('/' :: p.1, p.2))
        else if e = 'b' then (parseStringBody fuel r).map (fun p => (Char.ofNat 8 :: p.1, p.2))
        else if e = 'f' then (parseStringBody fuel r).map (fun p => (Char.ofNat 12 :: p.1, p.2))
        else if e = 'n' then (parseStringBody fuel r).map (fun p => ('\n' :: p.1, p.2))
        else if e = 'r' then (parseStringBody fuel r).map (fun p => ('\r' :: p.1, p.2))
        else if e = 't' then (parseStringBody fuel r).map (fun p => ('\t' :: p.1, p.2))
        else if e = 'u' then
          match r with
          | a :: b :: c2 :: d :: r2 =>
            match hex4 a b c2 d with
            | none => .error "Invalid uXXXX escape"
            | some n =>
              if 0xD800 ≤ n ∧ n < 0xDC00 then
                match r2 with
                | '\\' :: 'u' :: a2 :: b2 :: c3 :: d2 :: r3 =>
                  match hex4 a2 b2 c3 d2 with
                  | none => .error "Invalid uXXXX escape"
                  | some m =>
                    if 0xDC00 ≤ m ∧ m < 0xE000 then
                      (parseStringBody fuel r3).map (fun p =>
                        (Char.ofNat (0x10000 + (n - 0xD800) * 0x400 + (m - 0xDC00)) :: p.1, p.2))
                    else
                      (parseStringBody fuel ('\\' :: 'u' :: a2 :: b2 :: c3 :: d2 :: r3)).map
                        (fun p => (Char.ofNat n :: p.1, p.2))
                | _ => (parseStringBody fuel r2).map (fun p => (Char.ofNat n :: p.1, p.2))
              else
                (parseStringBody fuel r2).map (fun p => (Char.ofNat n :: p.1, p.2))
          | _ => .error "Invalid uXXXX escape"
        else .error "Invalid escape"
    else if c.toNat < 0x20 then .error "Invalid control character"
    else (parseStringBody fuel rest).map (fun p => (c :: p.1, p.2))

def isDigitCh (c : Char) : Bool := 48 ≤ c.toNat ∧ c.toNat ≤ 57

def takeDigits : List Char → List Char × List Char
  | [] => ([], [])
  | c :: r =>
    if isDigitCh c then
      let p := takeDigits r
      (c :: p.1, p.2)
    else ([], c :: r)

def digitsVal (l : List Char) : Nat :=
  l.foldl (fun acc c => acc * 10 + (c.toNat - 48)) 0

/-- The maximal match of CPython's `NUMBER_RE` at the head of the input
(`-?(0|[1-9]\d*)(\.\d+)?([eE][-+]?\d+)?`); no match is `Expecting value`.
An integral token becomes `Json.num`, any other token keeps its raw text. -/
def parseNumber (cs : List Char) : Except String (Json × List Char) :=
  let sgn := match cs with
    | '-' :: r => (true, r)
    | _ => (false, cs)
  match sgn.2 with
  | [] => .error "Expecting value"
  | c :: r =>
    if ¬ isDigitCh c then .error "Expecting value"
    else
      let ip : List Char × List Char :=
        if c = '0' then ([c], r)
        else
          let p := takeDigits r
          (c :: p.1, p.2)
      let fp : List Char × List Char :=
        match ip.2 with
        | '.' :: d :: r2 =>
          if isDigitCh d then
            let p := takeDigits r2
            ('.' :: d :: p.1, p.2)
          else ([], ip.2)
        | _ => ([], ip.2)
      let ep : List Char × List Char :=
        match fp.2 with
        | e :: '+' :: d :: r2 =>
          if (e = 'e' ∨ e = 'E') ∧ isDigitCh d then
            let p := takeDigits r2
            (e :: '+' :: d :: p.1, p.2)
          else ([], fp.2)
        | e :: '-' :: d :: r2 =>
          if (e = 'e' ∨ e = 'E') ∧ isDigitCh d then
            let p := takeDigits r2
            (e :: '-' :: d :: p.1, p.2)
          else ([], fp.2)
        | e :: d :: r2 =>
          if (e = 'e' ∨ e = 'E') ∧ isDigitCh d then
            let p := takeDigits r2
            (e :: d :: p.1, p.2)
          else ([], fp.2)
        | _ => ([], fp.2)
      if fp.1 = [] ∧ ep.1 = [] then
        let v : Int := Int.ofNat (digitsVal ip.1)
        .ok (.num (if sgn.1 then -v else v), ip.2)
      else
        .ok (.float (String.mk ((if sgn.1 then ['-'] else []) ++ ip.1 ++ fp.1 ++ ep.1)), ep.2)

/-- `startsL cs p` : the rest of `cs` after the literal prefix `p`, if present. -/
def startsL : List Char → List Char → Option (List Char)
  | cs, [] => some cs
  | [], _ :: _ => none
  | c :: cs, p :: ps => if c = p then startsL cs ps else none

/-- Number or one of the non-standard constants `NaN`, `Infinity`, `-Infinity`
(tried by CPython's scanner after the keyword literals). -/
def numOrConst (cs : List Char) : Except String (Json × List Char) :=
  match parseNumber cs with
  | .ok r => .ok r
  | .error _ =>
    match startsL cs ['N', 'a', 'N'] with
    | some r => .ok (.float "NaN", r)
    | none =>
      match startsL cs ['I', 'n', 'f', 'i', 'n', 'i', 't', 'y'] with
      | some r => .ok (.float "Infinity", r)
      | none =>
        match startsL cs ['-', 'I', 'n', 'f', 'i', 'n', 'i', 't', 'y'] with
        | some r => .ok (.float "-Infinity", r)
        | none => .error "Expecting value"

/-- Parser mode: a single value, the element loop of an array, or the member
loop of an object (positioned just after a key's opening quote). -/
inductive PMode where
  | val
  | arrLoop (acc : JArr)
  | objMembers (acc : JObj)

/-- One fuel unit is spent per recursive entry; `json_loads` passes ample fuel,
so exhaustion (`Expecting value`) is unreachable from it. -/
def parseStep : Nat → PMode → List Char → Except String (Json × List Char)
  | 0, _, _ => .error "Expecting value"
  | fuel + 1, .val, cs =>
    match cs with
    | [] => .error "Expecting value"
    | c :: rest =>
      if c = '"' then
        match parseStringBody (rest.length + 1) rest with
        | .error e => .error e
        | .ok (chars, r) => .ok (.str (String.mk chars), r)
      else if c = '{' then
        match skipWs rest with
        | [] => .error "Expecting property name enclosed in double quotes"
        | d :: r =>
          if d = '}' then .ok (.obj .nil, r)
          else if d = '"' then parseStep fuel (.objMembers .nil) r
          else .error "Expecting property name enclosed in double quotes"
      else if c = '[' then
        match skipWs rest with
        | [] => .error "Expecting value"
        | d :: r =>
          if d = ']' then .ok (.arr .nil, r)
          else parseStep fuel (.arrLoop .nil) (d :: r)
      else if c = 'n' then
        match startsL rest ['u', 'l', 'l'] with
        | some r => .ok (.null, r)
        | none => numOrConst cs
      else if c = 't' then
        match startsL rest ['r', 'u', 'e'] with
        | some r => .ok (.bool true, r)
        | none => numOrConst cs
      else if c = 'f' then
        match startsL rest ['a', 'l', 's', 'e'] with
        | some r => .ok (.bool false, r)
        | none => numOrConst cs
      else numOrConst cs
  | fuel + 1, .arrLoop acc, cs =>
    match parseStep fuel .val cs with
    | .error e => .error e
    | .ok (v, r) =>
      match skipWs r with
      | [] => .error "Expecting comma delimiter"
      | d :: r2 =>
        if d = ',' then parseStep fuel (.arrLoop (acc.snoc v)) (skipWs r2)
        else if d = ']' then .ok (.arr (acc.snoc v), r2)
        else .error "Expecting comma delimiter"
  | fuel + 1, .objMembers acc, cs =>
    match parseStringBody (cs.length + 1) cs with
    | .error e => .error e
    | .ok (kchars, r1) =>
      match skipWs r1 with
      | [] => .error "Expecting colon delimiter"
      | d :: r2 =>
        if d = ':' then
          match parseStep fuel .val (skipWs r2) with
          | .error e => .error e
          | .ok (v, r3) =>
            let acc' := acc.insert (String.mk kchars) v
            match skipWs r3 with
            | [] => .error "Expecting comma delimiter"
            | d2 :: r4 =>
              if d2 = ',' then
                match skipWs r4 with
                | [] => .error "Expecting property name enclosed in double quotes"
                | q :: r5 =>
                  if q = '"' then parseStep fuel (.objMembers acc') r5
                  else .error "Expecting property name enclosed in double quotes"
              else if d2 = '}' then .ok (.obj acc', r4)
              else .error "Expecting comma delimiter"
        else .error "Expecting colon delimiter"

/-- Python `json.loads` on a character list: skip leading whitespace, scan one
value, demand only whitespace afterwards. -/
def json_loads_list (cs0 : List Char) : Except String Json :=
  let cs := skipWs cs0
  match parseStep (2 * cs.length + 2) .val cs with
  | .error e => .error e
  | .ok (v, rest) => if skipWs rest = [] then .ok v else .error "Extra data"

def json_loads (s : String) : Except String Json :=
  json_loads_list s.toList

/-! ## The serializer: Python `json.dump(data, f, indent=2)` (`ensure_ascii=True`) -/

def hexDigit (d : Nat) : Char :=
  if d < 10 then Char.ofNat (48 + d) else Char.ofNat (87 + d)

def hex4Chars (n : Nat) : List Char :=
  [hexDigit (n / 4096 % 16), hexDigit (n / 256 % 16), hexDigit (n / 16 % 16), hexDigit (n % 16)]

/-- CPython `py_encode_basestring_ascii` for one character: short escapes for
`"` `\` and the five named controls, `\uXXXX` for the other characters outside
`0x20..0x7e`, surrogate pairs above `0xFFFF`. -/
def encAsciiChar (c : Char) : List Char :=
  if c = '"' then ['\\', '"']
  else if c = '\\' then ['\\', '\\']
  else if c = Char.ofNat 8 then ['\\', 'b']
  else if c = Char.ofNat 12 then ['\\', 'f']
  else if c = '\n' then ['\\', 'n']
  else if c = '\r' then ['\\', 'r']
  else if c = '\t' then ['\\', 't']
  else if c.toNat < 0x20 ∨ 0x7e < c.toNat then
    if c.toNat < 0x10000 then '\\' :: 'u' :: hex4Chars c.toNat
    else
      '\\' :: 'u' :: hex4Chars (0xD800 + (c.toNat - 0x10000) / 0x400) ++
        '\\' :: 'u' :: hex4Chars (0xDC00 + (c.toNat - 0x10000) % 0x400)
  else [c]

def encBody (l : List Char) : List Char :=
  (l.map encAsciiChar).flatten

def encodeString (s : String) : List Char :=
  '"' :: encBody s.toList ++ ['"']

def indentChars (n : Nat) : List Char :=
  List.replicate n ' '

mutual

/-- `json.dumps(v, indent=2)` rendered at indentation depth `ind`
(separators `','` and `': '`, newline-and-indent item separation). -/
def dumpV : Json → Nat → List Char
  | .null, _ => ['n', 'u', 'l', 'l']
  | .bool true, _ => ['t', 'r', 'u', 'e']
  | .bool false, _ => ['f', 'a', 'l', 's', 'e']
  | .num n, _ => (toString n).toList
  | .float raw, _ => raw.toList
  | .str s, _ => encodeString s
  | .arr .nil, _ => ['[', ']']
  | .arr (.cons x tl), ind =>
      '[' :: '\n' :: dumpItems (.cons x tl) (ind + 2) ++ '\n' :: indentChars ind ++ [']']
  | .obj .nil, _ => ['{', '}']
  | .obj (.cons k v tl), ind =>
      '{' :: '\n' :: dumpMembers (.cons k v tl) (ind + 2) ++ '\n' :: indentChars ind ++ ['}']

def dumpItems : JArr → Nat → List Char
  | .nil, _ => []
  | .cons x tl, ind =>
      indentChars ind ++ dumpV x ind ++
        (match tl with | .nil => [] | .cons _ _ => [',', '\n']) ++ dumpItems tl ind

def dumpMembers : JObj → Nat → List Char
  | .nil, _ => []
  | .cons k v tl, ind =>
      indentChars ind ++ encodeString k ++ ':' :: ' ' :: dumpV v ind ++
        (match tl with | .nil => [] | .cons _ _ _ => [',', '\n']) ++ dumpMembers tl ind

end

/-! ## types.py -/

/-- `Category` from types.py: the closed five-value enumeration. -/
inductive Category where
  | NEEDS_REPLY
  | NEEDS_ACTION
  | FYI
  | ARCHIVE
  | IGNORE
deriving DecidableEq

def Category.value : Category → String
  | .NEEDS_REPLY => "NEEDS_REPLY"
  | .NEEDS_ACTION => "NEEDS_ACTION"
  | .FYI => "FYI"
  | .ARCHIVE => "ARCHIVE"
  | .IGNORE => "IGNORE"

/-- Python `Category(s)` for a string `s`: the member with that value, else
`ValueError` (`none`). -/
def Category.ofString (s : String) : Option Category :=
  if s = "NEEDS_REPLY" then some .NEEDS_REPLY
  else if s = "NEEDS_ACTION" then some .NEEDS_ACTION
  else if s = "FYI" then some .FYI
  else if s = "ARCHIVE" then some .ARCHIVE
  else if s = "IGNORE" then some .IGNORE
  else none

/-- Python `Category(v)` for an arbitrary decoded JSON value: only the five
member strings match; every other value (wrong type included) is `ValueError`. -/
def categoryOfJson (v : Json) : Option Category :=
  match v with
  | .str s => Category.ofString s
  | _ => none

/-- `EmailData` from types.py. -/
structure EmailData where
  id : String
  thread_id : String
  sender : String
  subject : String
  snippet : String
  date : String
deriving DecidableEq

/-- The `dict[str, Any]` produced by `classify_single_email` and consumed by
`generate_summaries` / `save_pending` (keys `email_id`, `category`, `reason`,
`skip`; the source reads them with `.get` and the four keys are always
present on values this pipeline produces). -/
structure ResultDict where
  email_id : String
  category : String
  reason : String
  skip : Bool
deriving DecidableEq

/-! ## classifier.py -/

/-- Python string slice `s[:n]`. -/
def pyTake (s : String) (n : Nat) : String :=
  String.mk (s.toList.take n)

/-- The whitespace stripped by Python `str.strip()` (the full `str.isspace`
set). -/
def isPySpace (c : Char) : Bool :=
  let n := c.toNat
  (9 ≤ n ∧ n ≤ 13) ∨ n = 32 ∨ (28 ≤ n ∧ n ≤ 31) ∨ n = 0x85 ∨ n = 0xa0 ∨
    n = 0x1680 ∨ (0x2000 ≤ n ∧ n ≤ 0x200a) ∨ n = 0x2028 ∨ n = 0x2029 ∨
    n = 0x202f ∨ n = 0x205f ∨ n = 0x3000

def pyStrip (l : List Char) : List Char :=
  ((l.dropWhile isPySpace).reverse.dropWhile isPySpace).reverse

def pyStripS (s : String) : String :=
  String.mk (pyStrip s.toList)

/-- Index of the first occurrence of `c` (`s.index(c)`); `length` if absent. -/
def idxOf (l : List Char) (c : Char) : Nat :=
  match l with
  | [] => 0
  | x :: r => if x = c then 0 else 1 + idxOf r c

/-- Index of the last occurrence of `c`; `s.rindex(c)` raises `ValueError`
(`none`) if absent. -/
def lastIdxOf (l : List Char) (c : Char) : Option Nat :=
  if l.contains c then some (l.length - 1 - idxOf l.reverse c) else none

/-- The brace-slicing step of `parse_classification_response`:
`if "{" in response: response = response[response.index("{") : response.rindex("}") + 1]`,
where `rindex` raises `ValueError("substring not found")` if `}` is absent. -/
def sliceResponse (r : List Char) : Except String (List Char) :=
  if r.contains '{' then
    match lastIdxOf r '}' with
    | none => .error "substring not found"
    | some j => .ok ((r.drop (idxOf r '{')).take (j + 1 - idxOf r '{'))
  else .ok r

/-- Strip, slice between the outermost braces, `json.loads`.  An `error`
models an exception raised inside the `try` of `parse_classification_response`
that its `except (json.JSONDecodeError, ValueError)` clause catches. -/
def parseAttemptCore (response : String) : Except String Json :=
  match sliceResponse (pyStrip response.toList) with
  | .error e => .error e
  | .ok r2 => json_loads_list r2

/-- `parse_classification_response` from classifier.py.  `Except.error`
models an *uncaught* exception: `data.get` on a decoded non-object raises
`AttributeError`, which the `except (json.JSONDecodeError, ValueError)`
clause does not catch (Python's message quotes the type and attribute names;
the quotes are omitted here). -/
def parse_classification_response (response : String) : Except String (Category × String) :=
  match parseAttemptCore response with
  | .error e => .ok (Category.FYI, "Failed to parse response: " ++ e)
  | .ok (.obj kvs) =>
    let category_str := (kvs.get "category").getD (.str "FYI")
    let reason := (kvs.get "reason").getD (.str "")
    match categoryOfJson category_str with
    | some category => .ok (category, pyStr reason)
    | none => .ok (Category.FYI, "Unknown category: " ++ pyStr category_str)
  | .ok v => .error ("AttributeError: " ++ pyTypeName v ++ " object has no attribute get")

def build_classification_prompt (email : EmailData) : String :=
  "Classify this email into exactly one category:\n- NEEDS_REPLY: Requires a response from me\n- NEEDS_ACTION: Requires me to do something (not a reply)\n- FYI: Informational, read later, no action needed\n- ARCHIVE: Low value, newsletters I don\x27t read, notifications\n- IGNORE: Spam, marketing, completely irrelevant\n\nEmail:\nFrom: " ++
    email.sender ++ "\nSubject: " ++ email.subject ++ "\nPreview: " ++ email.snippet ++
    "\nDate: " ++ email.date ++
    "\n\nRespond with JSON only:\n\x7b\"category\": \"...\", \"reason\": \"one sentence\"\x7d"

def build_summary_prompt (emails : List EmailData) : String :=
  let email_list := String.intercalate "\n" (emails.map (fun e =>
    "- From: " ++ e.sender ++ ", Subject: " ++ e.subject ++ ", Preview: " ++ pyTake e.snippet 100))
  "Summarize these emails in a bullet list. Each bullet should be one short sentence describing what the email is about.\n\nEmails:\n" ++
    email_list ++ "\n\nRespond with bullet points only, one per email."

/-- `classify_single_email` from classifier.py.  The `try` block covers both
the backend call and the parse, so a parse-raised `AttributeError` also lands
in the `Classification failed` branch. -/
def classify_single_email (email : EmailData) (model : String)
    (chat : String → String → Except String String) : ResultDict :=
  let prompt := build_classification_prompt email
  match chat model prompt with
  | .error e =>
    { email_id := email.id, category := Category.FYI.value,
      reason := "Classification failed: " ++ e, skip := false }
  | .ok content =>
    match parse_classification_response content with
    | .ok (category, reason) =>
      { email_id := email.id, category := category.value, reason := reason, skip := false }
    | .error e =>
      { email_id := email.id, category := Category.FYI.value,
        reason := "Classification failed: " ++ e, skip := false }

/-- `classify_emails` from classifier.py: one sequential call per email, in
input order (the unused `batch_size` parameter and the progress printing are
omitted as pure I/O). -/
def classify_emails (emails : List EmailData) (model : String)
    (chat : String → String → Except String String) : List ResultDict :=
  emails.map (fun email => classify_single_email email model chat)

/-- `email_map = {e.id: e for e in emails}` followed by `email_map.get(id)`:
the comprehension lets a later duplicate id overwrite an earlier one. -/
def emailLookup (emails : List EmailData) (id : String) : Option EmailData :=
  emails.foldl (fun acc e => if e.id = id then some e else acc) none

/-- CPython dict-of-lists accumulation `d.setdefault-like` used by
`generate_summaries`: append to the existing key in place, else add the key
at the end. -/
def assocAppend {α : Type} (l : List (String × List α)) (k : String) (x : α) :
    List (String × List α) :=
  match l with
  | [] => [(k, [x])]
  | (k', xs) :: r => if k' = k then (k', xs ++ [x]) :: r else (k', xs) :: assocAppend r k x

def assocGet {α : Type} (l : List (String × α)) (k : String) : Option α :=
  match l with
  | [] => none
  | (k', v) :: r => if k' = k then some v else assocGet r k

/-- The grouping loop of `generate_summaries`: results whose `email_id` is
unknown are dropped. -/
def buildCategories (emails : List EmailData) (results : List ResultDict) :
    List (String × List EmailData) :=
  results.foldl (fun cats r =>
    match emailLookup emails r.email_id with
    | some e => assocAppend cats r.category e
    | none => cats) []

/-- Python `s.split("\n")` (empty pieces preserved). -/
def splitNlChars : List Char → List (List Char)
  | [] => [[]]
  | c :: r =>
    if c = '\n' then [] :: splitNlChars r
    else
      match splitNlChars r with
      | [] => [[c]]
      | h :: t => (c :: h) :: t

def pySplitNl (s : String) : List String :=
  (splitNlChars s.toList).map String.mk

/-- `line.startswith(("*", "-", "•"))`. -/
def isBulletStart (s : String) : Bool :=
  match s.toList with
  | [] => false
  | c :: _ => c = '*' ∨ c = '-' ∨ c = '•'

/-- `line.lstrip("*-• ")`. -/
def lstripBullets (s : String) : String :=
  String.mk (s.toList.dropWhile (fun c => c = '*' ∨ c = '-' ∨ c = '•' ∨ c = ' '))

def pluralS (n : Nat) : String :=
  if n ≠ 1 then "s" else ""

/-- `cat.replace("_", " ")`. -/
def displayName (cat : String) : String :=
  String.mk (cat.toList.map (fun c => if c = '_' then ' ' else c))

/-- `generate_summaries` from classifier.py.  The second component records
the prompts sent to the inference backend (one `ollama.chat` attempt per
summarized category), modelling the external calls made. -/
def generate_summaries (emails : List EmailData) (results : List ResultDict) (model : String)
    (chat : String → String → Except String String) : String × List String :=
  let categories := buildCategories emails results
  let important_cats := ["NEEDS_REPLY", "NEEDS_ACTION", "FYI"]
  let step := fun (acc : List String × List String) (cat : String) =>
    match assocGet categories cat with
    | none => acc
    | some cat_emails =>
      if cat_emails.isEmpty then acc
      else
        let count := cat_emails.length
        let header := "\n" ++ displayName cat ++ " (" ++ toString count ++ " email" ++
          pluralS count ++ "):"
        let prompt := build_summary_prompt cat_emails
        match chat model prompt with
        | .ok summary =>
          let lines := (pySplitNl (pyStripS summary)).foldl (fun ls line0 =>
            let line := pyStripS line0
            if line = "" then ls
            else if isBulletStart line then ls ++ ["• " ++ lstripBullets line]
            else ls ++ ["• " ++ line]) []
          (acc.1 ++ header :: lines, acc.2 ++ [prompt])
        | .error _ =>
          (acc.1 ++ header :: cat_emails.map (fun e => "• " ++ e.sender ++ ": " ++ pyTake e.subject 50),
            acc.2 ++ [prompt])
  let acc1 := important_cats.foldl step ([], [])
  let all_lines := ["ARCHIVE", "IGNORE"].foldl (fun ls cat =>
    match assocGet categories cat with
    | none => ls
    | some l => ls ++ ["\n" ++ cat ++ ": " ++ toString l.length ++ " email" ++ pluralS l.length]) acc1.1
  (String.intercalate "\n" all_lines, acc1.2)

/-! ## pending.py -/

/-- `PendingEmail` from types.py.  `load_pending` performs no type validation
on the four string fields and none on `skip`; the model renders a non-string
field value with `pyStr` and applies Python truthiness to `skip` at load,
which the source defers to the use sites — no claim distinguishes the two. -/
structure PendingEmail where
  account : String
  email_id : String
  category : Category
  skip : Bool
  subject : String
  sender : String
deriving DecidableEq

/-- `PendingResults` from types.py (`created_at` as its ISO string). -/
structure PendingResults where
  created_at : String
  results : List PendingEmail
deriving DecidableEq

/-- One element of the `"results"` list written by `save_pending`. -/
structure SavedEntry where
  account : String
  email_id : String
  category : String
  skip : Bool
  subject : String
  sender : String
deriving DecidableEq

def SavedEntry.toJson (p : SavedEntry) : Json :=
  .obj (.cons "account" (.str p.account)
    (.cons "email_id" (.str p.email_id)
      (.cons "category" (.str p.category)
        (.cons "skip" (.bool p.skip)
          (.cons "subject" (.str p.subject)
            (.cons "sender" (.str p.sender) .nil))))))

/-- The projection loop of `save_pending`: results with no matching email are
dropped; `subject` and `sender` come from the matched email. -/
def save_projection (account_name : String) (emails : List EmailData)
    (results : List ResultDict) : List SavedEntry :=
  results.filterMap (fun r =>
    (emailLookup emails r.email_id).map (fun e =>
      { account := account_name, email_id := r.email_id, category := r.category,
        skip := r.skip, subject := e.subject, sender := e.sender }))

def pendingDoc (now : String) (entries : List SavedEntry) : Json :=
  .obj (.cons "created_at" (.str now)
    (.cons "results" (.arr (JArr.ofList (entries.map SavedEntry.toJson))) .nil))

/-- `save_pending` from pending.py: the exact text written to pending.json
(`json.dump(data, f, indent=2)`), with `datetime.now().isoformat()` passed in
as `now`. -/
def save_pending (account_name : String) (emails : List EmailData)
    (results : List ResultDict) (now : String) : String :=
  String.mk (dumpV (pendingDoc now (save_projection account_name emails results)) 0)

/-- Field access for the four untyped string fields loaded by `load_pending`
(see `PendingEmail`). -/
def loadStrField (v : Json) : String :=
  match v with
  | .str s => s
  | v => pyStr v

/-- `Category(item.get("category", "FYI"))` with its `except ValueError`
fallback to `Category.FYI`. -/
def loadCategory (v : Json) : Category :=
  (categoryOfJson v).getD Category.FYI

/-- Python `for item in x` over the decoded `"results"` value: lists yield
their items, strings their characters, dicts their keys; other values raise
`TypeError`. -/
def iterResults (v : Json) : Except String (List Json) :=
  match v with
  | .arr xs => .ok xs.toList
  | .str s => .ok (s.toList.map (fun c => .str (String.mk [c])))
  | .obj kvs => .ok (kvs.keys.map .str)
  | v => .error ("TypeError: " ++ pyTypeName v ++ " object is not iterable")

/-- The item loop of `load_pending`; `item.get` on a non-dict item raises
`AttributeError` (uncaught there). -/
def loadItems : List Json → Except String (List PendingEmail)
  | [] => .ok []
  | .obj ikvs :: rest =>
    let pe : PendingEmail :=
      { account := loadStrField ((ikvs.get "account").getD (.str "")),
        email_id := loadStrField ((ikvs.get "email_id").getD (.str "")),
        category := loadCategory ((ikvs.get "category").getD (.str "FYI")),
        skip := pyTruthy ((ikvs.get "skip").getD (.bool false)),
        subject := loadStrField ((ikvs.get "subject").getD (.str "")),
        sender := loadStrField ((ikvs.get "sender").getD (.str "")) }
    (loadItems rest).map (fun l => pe :: l)
  | v :: _ => .error ("AttributeError: " ++ pyTypeName v ++ " object has no attribute get")

/-- `load_pending` from pending.py.  The store is the pending.json content if
the file exists; `now` is `datetime.now()` at load time and `fromiso` is
`datetime.fromisoformat` (`none` = `ValueError`, which the source catches).
`Except.error` models an exception the `except (json.JSONDecodeError,
KeyError)` clause does not catch: `data.get` on a non-dict document
(`AttributeError`), iterating a non-iterable `"results"` value (`TypeError`),
`item.get` on a non-dict item (`AttributeError`), and
`datetime.fromisoformat` on a non-string (`TypeError`). -/
def load_pending (store : Option String) (now : String)
    (fromiso : String → Option String) : Except String (Option PendingResults) :=
  match store with
  | none => .ok none
  | some content =>
    match json_loads content with
    | .error _ => .ok none
    | .ok (.obj kvs) =>
      match iterResults ((kvs.get "results").getD (.arr .nil)) with
      | .error e => .error e
      | .ok items =>
        match loadItems items with
        | .error e => .error e
        | .ok results =>
          match (kvs.get "created_at").getD (.str "") with
          | .str s => .ok (some { created_at := (fromiso s).getD now, results := results })
          | v => .error ("TypeError: fromisoformat argument must be str, not " ++ pyTypeName v)
    | .ok v => .error ("AttributeError: " ++ pyTypeName v ++ " object has no attribute get")

/-- `pending_exists` from pending.py. -/
def pending_exists (store : Option String) : Bool :=
  store.isSome

/-- `delete_pending` from pending.py (idempotent unlink). -/
def delete_pending (_store : Option String) : Option String :=
  none

/-! ## gmail.py -/

/-- The slice of `Config` that `apply_actions` reads: the category→label-name
dict and the configured account names (`config.accounts` keys; the token data
inside `AccountConfig` only feeds the abstracted Gmail service). -/
structure Config where
  labels : List (String × String)
  accounts : List String

/-- The external Gmail collaborator: `ensure_label_exists` returns a label id
or `""` on failure (it catches its own exceptions), and
`apply_label_and_archive` returns success (likewise catching its own
exceptions).  `get_gmail_service` is absorbed into this environment. -/
structure ApplyEnv where
  ensure : String → String
  modify : String → String → Bool → Bool

/-- One `dict` in the `results` list passed to `apply_actions`
(`{"email_id": ..., "category": ..., "skip": ...}` built by `apply_pending`
or by the CLI from classification results). -/
structure ActionItem where
  email_id : String
  category : String
  skip : Bool
deriving DecidableEq

/-- Record of one `apply_label_and_archive` invocation and its result. -/
structure ApplyCall where
  email_id : String
  label_id : String
  should_archive : Bool
  ok : Bool
deriving DecidableEq

/-- CPython dict assignment for the `label_ids` dict. -/
def dictInsertS (l : List (String × String)) (k v : String) : List (String × String) :=
  match l with
  | [] => [(k, v)]
  | (k', v') :: r => if k' = k then (k, v) :: r else (k', v') :: dictInsertS r k v

/-- The label-creation loop of `apply_actions`: categories whose
`ensure_label_exists` returned `""` get no entry. -/
def buildLabelIds (labels : List (String × String)) (env : ApplyEnv) :
    List (String × String) :=
  labels.foldl (fun acc p =>
    let label_id := env.ensure p.2
    if label_id ≠ "" then dictInsertS acc p.1 label_id else acc) []

/-- The body of the application loop of `apply_actions`: `skip` entries are
passed over, a missing label id or empty email id is passed over, otherwise
`apply_label_and_archive` is invoked (archiving exactly the `ARCHIVE` and
`IGNORE` categories) and counted on success. -/
def applyStep (label_ids : List (String × String)) (env : ApplyEnv)
    (acc : Nat × List ApplyCall) (r : ActionItem) : Nat × List ApplyCall :=
  if r.skip then acc
  else
    let label_id := (assocGet label_ids r.category).getD ""
    if label_id = "" ∨ r.email_id = "" then acc
    else
      let should_archive := r.category = "ARCHIVE" ∨ r.category = "IGNORE"
      let ok := env.modify r.email_id label_id should_archive
      (acc.1 + (if ok then 1 else 0), acc.2 ++ [⟨r.email_id, label_id, should_archive, ok⟩])

/-- `apply_actions` from gmail.py: the applied count and the trace of
`apply_label_and_archive` invocations. -/
def apply_actions (config : Config) (account_name : String)
    (results : List ActionItem) (env : ApplyEnv) : Nat × List ApplyCall :=
  if config.accounts.contains account_name then
    results.foldl (applyStep (buildLabelIds config.labels env) env) (0, [])
  else (0, [])

/-- The grouping loop of `apply_pending` (`accounts[result.account].append(...)`
with dict insertion order). -/
def groupByAccount (results : List PendingEmail) : List (String × List ActionItem) :=
  results.foldl (fun acc r =>
    assocAppend acc r.account ⟨r.email_id, r.category.value, r.skip⟩) []

/-- The body of the per-account loop of `apply_pending`: accounts absent from
the configuration are skipped, the rest are delegated to `apply_actions`. -/
def pendingStep (config : Config) (env : ApplyEnv)
    (acc : Nat × List (String × List ApplyCall)) (p : String × List ActionItem) :
    Nat × List (String × List ApplyCall) :=
  if config.accounts.contains p.1 then
    let r := apply_actions config p.1 p.2 env
    (acc.1 + r.1, acc.2 ++ [(p.1, r.2)])
  else acc

/-- `apply_pending` from pending.py: the total applied count, the store after
the unconditional `delete_pending`, and the per-account traces of the
`apply_actions` calls made (accounts absent from the configuration are
skipped before any such call). -/
def apply_pending (pending : PendingResults) (config : Config) (env : ApplyEnv)
    (store : Option String) : Nat × Option String × List (String × List ApplyCall) :=
  let applied := (groupByAccount pending.results).foldl (pendingStep config env) (0, [])
  (applied.1, delete_pending store, applied.2)

/-! ## Verification infrastructure -/

/-- Keys of an object are pairwise distinct. -/
def keysUnique : JObj → Bool
  | .nil => true
  | .cons k _ tl => !(JObj.keys tl).contains k && keysUnique tl

mutual

/-- Values in the image of the documents this program serializes: no numbers,
and objects with pairwise-distinct keys (what the round-trip proof needs). -/
def wfJ : Json → Bool
  | .null => true
  | .bool _ => true
  | .num _ => false
  | .float _ => false
  | .str _ => true
  | .arr xs => wfItems xs
  | .obj kvs => wfMembers kvs && keysUnique kvs

def wfItems : JArr → Bool
  | .nil => true
  | .cons x tl => wfJ x && wfItems tl

def wfMembers : JObj → Bool
  | .nil => true
  | .cons _ v tl => wfJ v && wfMembers tl

end

mutual

/-- Fuel consumed by `parseStep` on a dumped value. -/
def jweight : Json → Nat
  | .arr xs => 1 + aweight xs
  | .obj kvs => 1 + mweight kvs
  | _ => 1

def aweight : JArr → Nat
  | .nil => 0
  | .cons x tl => 1 + jweight x + aweight tl

def mweight : JObj → Nat
  | .nil => 0
  | .cons _ v tl => 1 + jweight v + mweight tl

end

/-- The text handed to the `.arrLoop` mode: the dumped items of a non-empty
array with their separators, the leading indentation already consumed. -/
def itemsText : JArr → Nat → List Char → List Char
  | .nil, _, close => close
  | .cons x tl, ind, close =>
    dumpV x ind ++
      (match tl with
       | .nil => close
       | .cons _ _ => ',' :: '\n' :: indentChars ind ++ itemsText tl ind close)

/-- The text handed to the `.objMembers` mode: the dumped members of a
non-empty object, the first key's indentation and opening quote already
consumed. -/
def membersText : JObj → Nat → List Char → List Char
  | .nil, _, close => close
  | .cons k v tl, ind, close =>
    encBody k.toList ++ '"' :: ':' :: ' ' :: dumpV v ind ++
      (match tl with
       | .nil => close
       | .cons _ _ _ => ',' :: '\n' :: indentChars ind ++ '"' :: membersText tl ind close)

/-- What `load_pending` reconstructs from one entry written by `save_pending`:
the same fields, with the category string put through enum validation
(invalid strings collapse to `FYI`). -/
def loadedEntry (p : SavedEntry) : PendingEmail :=
  { account := p.account, email_id := p.email_id,
    category := (Category.ofString p.category).getD Category.FYI,
    skip := p.skip, subject := p.subject, sender := p.sender }

/-- `sub` occurs as a contiguous substring of `s`. -/
def strContains (s sub : String) : Prop :=
  sub.toList <:+: s.toList

instance (s sub : String) : Decidable (strContains s sub) :=
  List.decidableInfix sub.toList s.toList

/-- The call the application loop makes for one non-dropped entry: its label
id from the resolved `label_ids`, archiving exactly the `ARCHIVE` and
`IGNORE` categories. -/
def mkApplyCall (label_ids : List (String × String)) (env : ApplyEnv)
    (r : ActionItem) : ApplyCall :=
  { email_id := r.email_id,
    label_id := (assocGet label_ids r.category).getD "",
    should_archive := r.category = "ARCHIVE" ∨ r.category = "IGNORE",
    ok := env.modify r.email_id ((assocGet label_ids r.category).getD "")
      (r.category = "ARCHIVE" ∨ r.category = "IGNORE") }

/-- The calls the application loop makes given the resolved `label_ids`: the
non-skipped entries whose category resolved to a label id and whose email id
is non-empty, in order. -/
def callsFor (label_ids : List (String × String)) (env : ApplyEnv)
    (results : List ActionItem) : List ApplyCall :=
  (results.filter (fun r => !r.skip &&
      !((assocGet label_ids r.category).getD "" = "") &&
      !(r.email_id = ""))).map (mkApplyCall label_ids env)

/-- The per-account `apply_actions` delegations `apply_pending` performs:
exactly the grouped accounts present in the configuration, in order. -/
def pendingTrace (config : Config) (env : ApplyEnv)
    (groups : List (String × List ActionItem)) : List (String × List ApplyCall) :=
  (groups.filter (fun p => config.accounts.contains p.1)).map
    (fun p => (p.1, (apply_actions config p.1 p.2 env).2))

/-! Concrete fixtures used by witnesses and counterexamples. -/

def emailW : EmailData :=
  { id := "w1", thread_id := "t1", sender := "w@x.com", subject := "Subj",
    snippet := "sn", date := "2026-01-01" }

def chatFailW : String → String → Except String String :=
  fun _ _ => .error "Connection error"

def email8a : EmailData :=
  { id := "e1", thread_id := "t1", sender := "alice@example.com",
    subject := "Please reply", snippet := "snip1", date := "2026-01-01" }

def email8b : EmailData :=
  { id := "e2", thread_id := "t2", sender := "carol@news.com",
    subject := "Weekly digest", snippet := "snip2", date := "2026-01-02" }

def results8 : List ResultDict :=
  [{ email_id := "e1", category := "NEEDS_REPLY", reason := "why", skip := false },
   { email_id := "e2", category := "ARCHIVE", reason := "low", skip := false }]

def chatDown8 : String → String → Except String String :=
  fun _ _ => .error "down"

def email3 : EmailData :=
  { id := "a", thread_id := "t", sender := "s@x.com", subject := "Héllo wörld",
    snippet := "sn", date := "d" }

def results3 : List ResultDict :=
  [{ email_id := "a", category := "WAT", reason := "r", skip := false },
   { email_id := "missing", category := "FYI", reason := "r", skip := true }]

def pendingW : PendingResults :=
  { created_at := "2026-01-01T00:00:00",
    results :=
      [{ account := "acct", email_id := "a", category := Category.ARCHIVE,
         skip := false, subject := "s", sender := "f" },
       { account := "ghost", email_id := "b", category := Category.FYI,
         skip := false, subject := "s2", sender := "f2" }] }

def configW : Config :=
  { labels := [("ARCHIVE", "Auto/Archive")], accounts := ["acct"] }

def envW : ApplyEnv :=
  { ensure := fun _ => "L1", modify := fun _ _ _ => true }

/-! ## Theorems -/

/-! ### Round trip of the string encoder through the string scanner -/

theorem char_valid_facts (c : Char) :
    c.toNat < 1114112 ∧ (c.toNat < 55296 ∨ 57344 ≤ c.toNat) := by
  have h := c.valid
  unfold UInt32.isValidChar at h
  unfold Nat.isValidChar at h
  have he : c.toNat = c.val.toNat := rfl
  rcases h with h | ⟨h1, h2⟩ <;> omega

theorem hexVal_hexDigit (d : Nat) (h : d < 16) : hexVal (hexDigit d) = some d := by
  interval_cases d <;> rfl

theorem hex4_hex4Chars (n : Nat) (h : n < 65536) :
    hex4 (hexDigit (n / 4096 % 16)) (hexDigit (n / 256 % 16))
      (hexDigit (n / 16 % 16)) (hexDigit (n % 16)) = some n := by
  unfold hex4
  rw [hexVal_hexDigit _ (Nat.mod_lt _ (by omega)), hexVal_hexDigit _ (Nat.mod_lt _ (by omega)),
    hexVal_hexDigit _ (Nat.mod_lt _ (by omega)), hexVal_hexDigit _ (Nat.mod_lt _ (by omega))]
  show some (((n / 4096 % 16 * 16 + n / 256 % 16) * 16 + n / 16 % 16) * 16 + n % 16) = some n
  exact congrArg some (by omega)

/-- The `\uXXXX` case of the string scanner, exposed with symbolic hex
characters and tail (holds by unfolding). -/
theorem parseStringBody_u (fuel : Nat) (a b c2 d : Char) (r2 : List Char) :
    parseStringBody (fuel + 1) ('\\' :: 'u' :: a :: b :: c2 :: d :: r2) =
      (match hex4 a b c2 d with
       | none => .error "Invalid uXXXX escape"
       | some n =>
         if 55296 ≤ n ∧ n < 56320 then
           (match r2 with
            | '\\' :: 'u' :: a2 :: b2 :: c3 :: d2 :: r3 =>
              match hex4 a2 b2 c3 d2 with
              | none => .error "Invalid uXXXX escape"
              | some m =>
                if 56320 ≤ m ∧ m < 57344 then
                  (parseStringBody fuel r3).map (fun p =>
                    (Char.ofNat (65536 + (n - 55296) * 1024 + (m - 56320)) :: p.1, p.2))
                else
                  (parseStringBody fuel ('\\' :: 'u' :: a2 :: b2 :: c3 :: d2 :: r3)).map
                    (fun p => (Char.ofNat n :: p.1, p.2))
            | _ => (parseStringBody fuel r2).map (fun p => (Char.ofNat n :: p.1, p.2)))
         else
           (parseStringBody fuel r2).map (fun p => (Char.ofNat n :: p.1, p.2))) := rfl

theorem parseStringBody_u_nonsurr (fuel : Nat) (a b c2 d : Char) (r2 : List Char)
    (n : Nat) (hh : hex4 a b c2 d = some n) (hns : ¬ (55296 ≤ n ∧ n < 56320)) :
    parseStringBody (fuel + 1) ('\\' :: 'u' :: a :: b :: c2 :: d :: r2) =
      (parseStringBody fuel r2).map (fun p => (Char.ofNat n :: p.1, p.2)) := by
  rw [parseStringBody_u, hh]
  simp only [if_neg hns]

theorem parseStringBody_u_pair (fuel : Nat) (a b c2 d a2 b2 c3 d2 : Char) (r3 : List Char)
    (n m : Nat) (hh : hex4 a b c2 d = some n) (hh2 : hex4 a2 b2 c3 d2 = some m)
    (hn : 55296 ≤ n ∧ n < 56320) (hm : 56320 ≤ m ∧ m < 57344) :
    parseStringBody (fuel + 1)
        ('\\' :: 'u' :: a :: b :: c2 :: d :: '\\' :: 'u' :: a2 :: b2 :: c3 :: d2 :: r3) =
      (parseStringBody fuel r3).map (fun p =>
        (Char.ofNat (65536 + (n - 55296) * 1024 + (m - 56320)) :: p.1, p.2)) := by
  rw [parseStringBody_u, hh]
  simp only [if_pos hn]
  rw [hh2]
  simp only [if_pos hm]

theorem parse_enc_char (c : Char) (X : List Char) (fuel : Nat) :
    parseStringBody (fuel + 1) (encAsciiChar c ++ X) =
      (parseStringBody fuel X).map (fun p => (c :: p.1, p.2)) := by
  obtain ⟨hlt, hsurr⟩ := char_valid_facts c
  unfold encAsciiChar
  split_ifs with h1 h2 h3 h4 h5 h6 h7 h8 h9
  · subst h1; simp [parseStringBody]
  · subst h2; simp [parseStringBody]
  · subst h3; simp [parseStringBody]
  · subst h4; simp [parseStringBody]
  · subst h5; simp [parseStringBody]
  · subst h6; simp [parseStringBody]
  · subst h7; simp [parseStringBody]
  · -- single \uXXXX escape, c.toNat < 0x10000 and not a surrogate
    show parseStringBody (fuel + 1)
        ('\\' :: 'u' :: hex4Chars c.toNat ++ X) = _
    unfold hex4Chars
    simp only [List.cons_append, List.nil_append]
    rw [parseStringBody_u_nonsurr fuel _ _ _ _ X c.toNat (hex4_hex4Chars c.toNat h9)
      (by omega), Char.ofNat_toNat]
  · -- surrogate pair for c.toNat ≥ 0x10000
    have hge : 65536 ≤ c.toNat := by omega
    show parseStringBody (fuel + 1)
        (('\\' :: 'u' :: hex4Chars (55296 + (c.toNat - 65536) / 1024) ++
          '\\' :: 'u' :: hex4Chars (56320 + (c.toNat - 65536) % 1024)) ++ X) = _
    unfold hex4Chars
    simp only [List.cons_append, List.nil_append, List.append_assoc]
    rw [parseStringBody_u_pair fuel _ _ _ _ _ _ _ _ X _ _
      (hex4_hex4Chars _ (by omega)) (hex4_hex4Chars _ (by omega))
      ⟨by omega, by omega⟩ ⟨by omega, by omega⟩]
    have harith : 65536 + (55296 + (c.toNat - 65536) / 1024 - 55296) * 1024 +
        (56320 + (c.toNat - 65536) % 1024 - 56320) = c.toNat := by omega
    rw [harith, Char.ofNat_toNat]
  · -- printable ASCII other than quote and backslash: emitted as itself
    have h0x20 : ¬ c.toNat < 32 := by omega
    rw [List.singleton_append, parseStringBody.eq_def]
    simp only [if_neg h1, if_neg h2, if_neg h0x20]

theorem parse_encBody (l : List Char) :
    ∀ (X : List Char) (fuel : Nat), l.length < fuel →
      parseStringBody fuel (encBody l ++ '"' :: X) = .ok (l, X) := by
  induction l with
  | nil =>
    intro X fuel hf
    match fuel, hf with
    | fuel + 1, _ =>
      show parseStringBody (fuel + 1) ('"' :: X) = _
      rfl
  | cons c l ih =>
    intro X fuel hf
    match fuel, hf with
    | fuel + 1, hf =>
      have hsplit : encBody (c :: l) ++ '"' :: X =
          encAsciiChar c ++ (encBody l ++ '"' :: X) := by
        simp [encBody]
      rw [hsplit, parse_enc_char, ih X fuel (by simpa using Nat.lt_of_succ_lt_succ hf)]
      rfl

theorem length_le_encBody (l : List Char) : l.length ≤ (encBody l).length := by
  induction l with
  | nil => simp [encBody]
  | cons c l ih =>
    have h1 : encBody (c :: l) = encAsciiChar c ++ encBody l := by simp [encBody]
    have h2 : 1 ≤ (encAsciiChar c).length := by
      unfold encAsciiChar
      split_ifs <;> simp
    rw [h1]
    simp only [List.length_append, List.length_cons]
    omega

theorem parse_string_site (k : String) (X : List Char) :
    parseStringBody ((encBody k.toList ++ '"' :: X).length + 1)
      (encBody k.toList ++ '"' :: X) = .ok (k.toList, X) := by
  apply parse_encBody
  have := length_le_encBody k.toList
  simp only [List.length_append, List.length_cons]
  omega

/-! ### Round trip of the serializer through the parser -/

theorem skipWs_newline (l : List Char) : skipWs ('\n' :: l) = skipWs l := by
  simp [skipWs, jsonWs]

theorem skipWs_indent (n : Nat) (l : List Char) :
    skipWs (indentChars n ++ l) = skipWs l := by
  induction n with
  | zero => rfl
  | succ n ih =>
    show skipWs (List.replicate (n + 1) ' ' ++ l) = skipWs l
    rw [List.replicate_succ]
    show skipWs (' ' :: (List.replicate n ' ' ++ l)) = skipWs l
    rw [show skipWs (' ' :: (List.replicate n ' ' ++ l)) =
      skipWs (List.replicate n ' ' ++ l) by simp [skipWs, jsonWs]]
    exact ih

theorem skipWs_nonws (c : Char) (l : List Char) (h : jsonWs c = false) :
    skipWs (c :: l) = c :: l := by
  simp [skipWs, h]

theorem String.mk_toList (s : String) : String.mk s.toList = s := by
  cases s
  rfl

theorem dumpV_head (v : Json) (h : wfJ v = true) (ind : Nat) :
    ∃ c cs, dumpV v ind = c :: cs ∧ jsonWs c = false ∧ c ≠ ']' := by
  cases v with
  | null => exact ⟨'n', _, rfl, by decide, by decide⟩
  | bool b => cases b
              · exact ⟨'f', _, rfl, by decide, by decide⟩
              · exact ⟨'t', _, rfl, by decide, by decide⟩
  | num n => exact absurd h (by simp [wfJ])
  | float raw => exact absurd h (by simp [wfJ])
  | str s => exact ⟨'"', _, rfl, by decide, by decide⟩
  | arr xs =>
    cases xs with
    | nil => exact ⟨'[', _, rfl, by decide, by decide⟩
    | cons x tl => exact ⟨'[', _, rfl, by decide, by decide⟩
  | obj kvs =>
    cases kvs with
    | nil => exact ⟨'{', _, rfl, by decide, by decide⟩
    | cons k v2 tl => exact ⟨'{', _, rfl, by decide, by decide⟩

theorem skipWs_dump (v : Json) (h : wfJ v = true) (ind : Nat) (X : List Char) :
    skipWs (dumpV v ind ++ X) = dumpV v ind ++ X := by
  obtain ⟨c, cs, hd, hws, _⟩ := dumpV_head v h ind
  rw [hd, List.cons_append, skipWs_nonws c _ hws]

theorem JArr.append_nil : ∀ (a : JArr), JArr.append a .nil = a
  | .nil => rfl
  | .cons x tl => by simp [JArr.append, JArr.append_nil tl]

theorem JArr.snoc_append : ∀ (a : JArr) (x : Json) (tl : JArr),
    (a.snoc x).append tl = a.append (.cons x tl)
  | .nil, x, tl => rfl
  | .cons y a, x, tl => by simp [JArr.snoc, JArr.append, JArr.snoc_append a x tl]

theorem JArr.snoc_eq (a : JArr) (x : Json) : a.snoc x = a.append (.cons x .nil) := by
  have h := JArr.snoc_append a x .nil
  rw [JArr.append_nil] at h
  exact h

theorem JObj.keys_append : ∀ (a b : JObj),
    JObj.keys (a.append b) = JObj.keys a ++ JObj.keys b
  | .nil, b => rfl
  | .cons k v tl, b => by simp [JObj.append, JObj.keys, JObj.keys_append tl b]

theorem JObj.insert_fresh : ∀ (a : JObj) (k : String) (v : Json),
    (JObj.keys a).contains k = false → a.insert k v = a.append (.cons k v .nil)
  | .nil, k, v, _ => rfl
  | .cons k' v' tl, k, v, h => by
    simp only [JObj.keys, List.contains_cons, Bool.or_eq_false_iff] at h
    have hk : ¬ k' = k := by
      intro he
      subst he
      simp at h
    simp [JObj.insert, hk, JObj.append, JObj.insert_fresh tl k v h.2]

theorem JObj.append_single : ∀ (a : JObj) (k : String) (v : Json) (tl : JObj),
    (a.append (.cons k v .nil)).append tl = a.append (.cons k v tl)
  | .nil, _, _, _ => rfl
  | .cons k' v' a, k, v, tl => by simp [JObj.append, JObj.append_single a k v tl]

theorem dumpItems_expose : ∀ (xs : JArr) (ind : Nat) (close : List Char), xs ≠ .nil →
    dumpItems xs ind ++ close = indentChars ind ++ itemsText xs ind close
  | .nil, _, _, h => absurd rfl h
  | .cons x .nil, ind, close, _ => by simp [dumpItems, itemsText]
  | .cons x (.cons y tl2), ind, close, _ => by
    have ih := dumpItems_expose (.cons y tl2) ind close (by intro hc; exact JArr.noConfusion hc)
    simp only [dumpItems, itemsText, List.append_assoc, List.cons_append, List.nil_append] at ih ⊢
    rw [ih]

theorem dumpMembers_expose : ∀ (kvs : JObj) (ind : Nat) (close : List Char), kvs ≠ .nil →
    dumpMembers kvs ind ++ close = indentChars ind ++ '"' :: membersText kvs ind close
  | .nil, _, _, h => absurd rfl h
  | .cons k v .nil, ind, close, _ => by simp [dumpMembers, membersText, encodeString]
  | .cons k v (.cons k2 v2 tl2), ind, close, _ => by
    have ih := dumpMembers_expose (.cons k2 v2 tl2) ind close
      (by intro hc; exact JObj.noConfusion hc)
    simp only [dumpMembers, membersText, encodeString, List.append_assoc, List.cons_append,
      List.nil_append] at ih ⊢
    rw [ih]

theorem parseStep_val_quote (fuel : Nat) (Y : List Char) :
    parseStep (fuel + 1) .val ('"' :: Y) =
      (match parseStringBody (Y.length + 1) Y with
       | .error e => .error e
       | .ok (chars, r) => .ok (.str (String.mk chars), r)) := rfl

theorem parseStep_val_lbrace (fuel : Nat) (Y : List Char) :
    parseStep (fuel + 1) .val ('{' :: Y) =
      (match skipWs Y with
       | [] => .error "Expecting property name enclosed in double quotes"
       | d :: r =>
         if d = '}' then .ok (.obj .nil, r)
         else if d = '"' then parseStep fuel (.objMembers .nil) r
         else .error "Expecting property name enclosed in double quotes") := rfl

theorem parseStep_val_lbracket (fuel : Nat) (Y : List Char) :
    parseStep (fuel + 1) .val ('[' :: Y) =
      (match skipWs Y with
       | [] => .error "Expecting value"
       | d :: r =>
         if d = ']' then .ok (.arr .nil, r)
         else parseStep fuel (.arrLoop .nil) (d :: r)) := rfl

theorem parseStep_val_n (fuel : Nat) (Y : List Char) :
    parseStep (fuel + 1) .val ('n' :: Y) =
      (match startsL Y ['u', 'l', 'l'] with
       | some r => .ok (.null, r)
       | none => numOrConst ('n' :: Y)) := rfl

theorem parseStep_val_t (fuel : Nat) (Y : List Char) :
    parseStep (fuel + 1) .val ('t' :: Y) =
      (match startsL Y ['r', 'u', 'e'] with
       | some r => .ok (.bool true, r)
       | none => numOrConst ('t' :: Y)) := rfl

theorem parseStep_val_f (fuel : Nat) (Y : List Char) :
    parseStep (fuel + 1) .val ('f' :: Y) =
      (match startsL Y ['a', 'l', 's', 'e'] with
       | some r => .ok (.bool false, r)
       | none => numOrConst ('f' :: Y)) := rfl

theorem parseStep_null (fuel : Nat) (rest : List Char) :
    parseStep (fuel + 1) .val ('n' :: 'u' :: 'l' :: 'l' :: rest) = .ok (.null, rest) := by
  rw [parseStep_val_n]
  simp [startsL]

theorem parseStep_true (fuel : Nat) (rest : List Char) :
    parseStep (fuel + 1) .val ('t' :: 'r' :: 'u' :: 'e' :: rest) = .ok (.bool true, rest) := by
  rw [parseStep_val_t]
  simp [startsL]

theorem parseStep_false (fuel : Nat) (rest : List Char) :
    parseStep (fuel + 1) .val ('f' :: 'a' :: 'l' :: 's' :: 'e' :: rest) =
      .ok (.bool false, rest) := by
  rw [parseStep_val_f]
  simp [startsL]

theorem parseStep_arrLoop (fuel : Nat) (acc : JArr) (cs : List Char) :
    parseStep (fuel + 1) (.arrLoop acc) cs =
      (match parseStep fuel .val cs with
       | .error e => .error e
       | .ok (v, r) =>
         match skipWs r with
         | [] => .error "Expecting comma delimiter"
         | d :: r2 =>
           if d = ',' then parseStep fuel (.arrLoop (acc.snoc v)) (skipWs r2)
           else if d = ']' then .ok (.arr (acc.snoc v), r2)
           else .error "Expecting comma delimiter") := rfl

theorem parseStep_objMembers (fuel : Nat) (acc : JObj) (cs : List Char) :
    parseStep (fuel + 1) (.objMembers acc) cs =
      (match parseStringBody (cs.length + 1) cs with
       | .error e => .error e
       | .ok (kchars, r1) =>
         match skipWs r1 with
         | [] => .error "Expecting colon delimiter"
         | d :: r2 =>
           if d = ':' then
             match parseStep fuel .val (skipWs r2) with
             | .error e => .error e
             | .ok (v, r3) =>
               let acc' := acc.insert (String.mk kchars) v
               match skipWs r3 with
               | [] => .error "Expecting comma delimiter"
               | d2 :: r4 =>
                 if d2 = ',' then
                   match skipWs r4 with
                   | [] => .error "Expecting property name enclosed in double quotes"
                   | q :: r5 =>
                     if q = '"' then parseStep fuel (.objMembers acc') r5
                     else .error "Expecting property name enclosed in double quotes"
                 else if d2 = '}' then .ok (.obj acc', r4)
                 else .error "Expecting comma delimiter"
           else .error "Expecting colon delimiter") := rfl

theorem jweight_pos (v : Json) : 1 ≤ jweight v := by
  cases v <;> simp [jweight]

theorem itemsText_cons (x : Json) (tl : JArr) (i : Nat) (close : List Char) :
    itemsText (.cons x tl) i close =
      dumpV x i ++ (match tl with
        | .nil => close
        | .cons _ _ => ',' :: '\n' :: indentChars i ++ itemsText tl i close) := rfl

theorem membersText_cons (k : String) (v : Json) (tl : JObj) (i : Nat) (close : List Char) :
    membersText (.cons k v tl) i close =
      encBody k.toList ++ '"' :: ':' :: ' ' :: dumpV v i ++ (match tl with
        | .nil => close
        | .cons _ _ _ => ',' :: '\n' :: indentChars i ++ '"' :: membersText tl i close) := rfl

theorem skipWs_space (l : List Char) : skipWs (' ' :: l) = skipWs l := by
  simp [skipWs, jsonWs]

theorem parseStep_lbracket_cont (fuel : Nat) (Y : List Char) (d : Char) (r : List Char)
    (hY : skipWs Y = d :: r) (hd : ¬ d = ']') :
    parseStep (fuel + 1) .val ('[' :: Y) = parseStep fuel (.arrLoop .nil) (d :: r) := by
  rw [parseStep_val_lbracket, hY]
  simp [hd]

theorem parseStep_lbrace_cont (fuel : Nat) (Y : List Char) (r : List Char)
    (hY : skipWs Y = '"' :: r) :
    parseStep (fuel + 1) .val ('{' :: Y) = parseStep fuel (.objMembers .nil) r := by
  rw [parseStep_val_lbrace, hY]
  simp

theorem arrLoop_comma (fuel : Nat) (acc : JArr) (cs : List Char) (v : Json)
    (r r2 : List Char) (hval : parseStep fuel .val cs = .ok (v, r))
    (hr : skipWs r = ',' :: r2) :
    parseStep (fuel + 1) (.arrLoop acc) cs =
      parseStep fuel (.arrLoop (acc.snoc v)) (skipWs r2) := by
  rw [parseStep_arrLoop, hval]
  simp only []
  rw [hr]
  simp

theorem arrLoop_close (fuel : Nat) (acc : JArr) (cs : List Char) (v : Json)
    (r r2 : List Char) (hval : parseStep fuel .val cs = .ok (v, r))
    (hr : skipWs r = ']' :: r2) :
    parseStep (fuel + 1) (.arrLoop acc) cs = .ok (.arr (acc.snoc v), r2) := by
  rw [parseStep_arrLoop, hval]
  simp only []
  rw [hr]
  simp

theorem objMembers_go (fuel : Nat) (acc : JObj) (k : String) (W : List Char)
    (v : Json) (r3 : List Char)
    (hval : parseStep fuel .val (skipWs W) = .ok (v, r3)) :
    parseStep (fuel + 1) (.objMembers acc) (encBody k.toList ++ '"' :: ':' :: ' ' :: W) =
      (match skipWs r3 with
       | [] => .error "Expecting comma delimiter"
       | d2 :: r4 =>
         if d2 = ',' then
           match skipWs r4 with
           | [] => .error "Expecting property name enclosed in double quotes"
           | q :: r5 =>
             if q = '"' then parseStep fuel (.objMembers (acc.insert k v)) r5
             else .error "Expecting property name enclosed in double quotes"
         else if d2 = '}' then .ok (.obj (acc.insert k v), r4)
         else .error "Expecting comma delimiter") := by
  rw [parseStep_objMembers, parse_string_site k (':' :: ' ' :: W)]
  simp only []
  rw [skipWs_nonws ':' (' ' :: W) (by decide)]
  simp only []
  rw [skipWs_space, hval, String.mk_toList]
  simp

theorem objMembers_close (fuel : Nat) (acc : JObj) (k : String) (W : List Char)
    (v : Json) (r3 r4 : List Char)
    (hval : parseStep fuel .val (skipWs W) = .ok (v, r3))
    (hr : skipWs r3 = '}' :: r4) :
    parseStep (fuel + 1) (.objMembers acc) (encBody k.toList ++ '"' :: ':' :: ' ' :: W) =
      .ok (.obj (acc.insert k v), r4) := by
  rw [objMembers_go fuel acc k W v r3 hval, hr]
  simp

theorem objMembers_comma (fuel : Nat) (acc : JObj) (k : String) (W : List Char)
    (v : Json) (r3 r4 r5 : List Char)
    (hval : parseStep fuel .val (skipWs W) = .ok (v, r3))
    (hr : skipWs r3 = ',' :: r4) (hq : skipWs r4 = '"' :: r5) :
    parseStep (fuel + 1) (.objMembers acc) (encBody k.toList ++ '"' :: ':' :: ' ' :: W) =
      parseStep fuel (.objMembers (acc.insert k v)) r5 := by
  rw [objMembers_go fuel acc k W v r3 hval, hr]
  simp only []
  rw [hq]
  simp

mutual

theorem rt_val : ∀ (v : Json) (ind fuel : Nat) (rest : List Char),
    wfJ v = true → jweight v ≤ fuel →
    parseStep fuel PMode.val (dumpV v ind ++ rest) = .ok (v, rest)
  | .null, ind, fuel, rest, _, hf => by
    cases fuel with
    | zero => simp [jweight] at hf
    | succ f =>
      have hd : dumpV .null ind ++ rest = 'n' :: 'u' :: 'l' :: 'l' :: rest := rfl
      rw [hd, parseStep_null]
  | .bool true, ind, fuel, rest, _, hf => by
    cases fuel with
    | zero => simp [jweight] at hf
    | succ f =>
      have hd : dumpV (.bool true) ind ++ rest = 't' :: 'r' :: 'u' :: 'e' :: rest := rfl
      rw [hd, parseStep_true]
  | .bool false, ind, fuel, rest, _, hf => by
    cases fuel with
    | zero => simp [jweight] at hf
    | succ f =>
      have hd : dumpV (.bool false) ind ++ rest = 'f' :: 'a' :: 'l' :: 's' :: 'e' :: rest := rfl
      rw [hd, parseStep_false]
  | .num n, _, _, _, hw, _ => by simp [wfJ] at hw
  | .float raw, _, _, _, hw, _ => by simp [wfJ] at hw
  | .str s, ind, fuel, rest, _, hf => by
    cases fuel with
    | zero => simp [jweight] at hf
    | succ f =>
      have hd : dumpV (.str s) ind ++ rest = '"' :: (encBody s.toList ++ '"' :: rest) := by
        simp [dumpV, encodeString]
      rw [hd, parseStep_val_quote, parse_string_site s rest]
      simp [String.mk_toList]
  | .arr .nil, ind, fuel, rest, _, hf => by
    cases fuel with
    | zero => simp [jweight] at hf
    | succ f =>
      have hd : dumpV (.arr .nil) ind ++ rest = '[' :: ']' :: rest := rfl
      rw [hd, parseStep_val_lbracket, skipWs_nonws ']' rest (by decide)]
      simp
  | .arr (.cons x tl), ind, fuel, rest, hw, hf => by
    have hwi : wfItems (.cons x tl) = true := by simpa [wfJ] using hw
    have hwx : wfJ x = true := by
      simp only [wfItems, Bool.and_eq_true] at hwi
      exact hwi.1
    cases fuel with
    | zero =>
      simp only [jweight] at hf
      omega
    | succ f =>
      have hd : dumpV (.arr (.cons x tl)) ind ++ rest =
          '[' :: ('\n' :: (dumpItems (.cons x tl) (ind + 2) ++
            ('\n' :: indentChars ind ++ ']' :: rest))) := by
        simp [dumpV]
      obtain ⟨c, cs, hdx, hws, hbr⟩ := dumpV_head x hwx (ind + 2)
      have hfa : aweight (.cons x tl) ≤ f := by
        simp only [jweight] at hf
        omega
      cases tl with
      | nil =>
        have hshape : itemsText (.cons x .nil) (ind + 2)
            ('\n' :: indentChars ind ++ ']' :: rest) =
            c :: (cs ++ ('\n' :: indentChars ind ++ ']' :: rest)) := by
          show dumpV x (ind + 2) ++ ('\n' :: indentChars ind ++ ']' :: rest) = _
          rw [hdx]
          rfl
        have hY : skipWs ('\n' :: (dumpItems (.cons x .nil) (ind + 2) ++
            ('\n' :: indentChars ind ++ ']' :: rest))) =
            c :: (cs ++ ('\n' :: indentChars ind ++ ']' :: rest)) := by
          rw [skipWs_newline,
            dumpItems_expose (.cons x .nil) (ind + 2) _ (fun hc => JArr.noConfusion hc),
            skipWs_indent, hshape, skipWs_nonws c _ hws]
        rw [hd, parseStep_lbracket_cont f _ c _ hY hbr, ← hshape]
        exact rt_arrLoop (.cons x .nil) .nil (ind + 2) ind f rest hwi hfa
          (fun hc => JArr.noConfusion hc)
      | cons y tl2 =>
        have hshape : itemsText (.cons x (.cons y tl2)) (ind + 2)
            ('\n' :: indentChars ind ++ ']' :: rest) =
            c :: (cs ++ (',' :: '\n' :: indentChars (ind + 2) ++
              itemsText (.cons y tl2) (ind + 2) ('\n' :: indentChars ind ++ ']' :: rest))) := by
          show dumpV x (ind + 2) ++ (',' :: '\n' :: indentChars (ind + 2) ++
            itemsText (.cons y tl2) (ind + 2) ('\n' :: indentChars ind ++ ']' :: rest)) = _
          rw [hdx]
          rfl
        have hY : skipWs ('\n' :: (dumpItems (.cons x (.cons y tl2)) (ind + 2) ++
            ('\n' :: indentChars ind ++ ']' :: rest))) =
            c :: (cs ++ (',' :: '\n' :: indentChars (ind + 2) ++
              itemsText (.cons y tl2) (ind + 2) ('\n' :: indentChars ind ++ ']' :: rest))) := by
          rw [skipWs_newline,
            dumpItems_expose (.cons x (.cons y tl2)) (ind + 2) _
              (fun hc => JArr.noConfusion hc),
            skipWs_indent, hshape, skipWs_nonws c _ hws]
        rw [hd, parseStep_lbracket_cont f _ c _ hY hbr, ← hshape]
        exact rt_arrLoop (.cons x (.cons y tl2)) .nil (ind + 2) ind f rest hwi hfa
          (fun hc => JArr.noConfusion hc)
  | .obj .nil, ind, fuel, rest, _, hf => by
    cases fuel with
    | zero => simp [jweight] at hf
    | succ f =>
      have hd : dumpV (.obj .nil) ind ++ rest = '{' :: '}' :: rest := rfl
      rw [hd, parseStep_val_lbrace, skipWs_nonws '}' rest (by decide)]
      simp
  | .obj (.cons k v tl), ind, fuel, rest, hw, hf => by
    have hw2 : wfMembers (.cons k v tl) = true ∧ keysUnique (.cons k v tl) = true := by
      simpa [wfJ, Bool.and_eq_true] using hw
    cases fuel with
    | zero =>
      simp only [jweight] at hf
      omega
    | succ f =>
      have hd : dumpV (.obj (.cons k v tl)) ind ++ rest =
          '{' :: ('\n' :: (dumpMembers (.cons k v tl) (ind + 2) ++
            ('\n' :: indentChars ind ++ '}' :: rest))) := by
        simp [dumpV]
      have hY : skipWs ('\n' :: (dumpMembers (.cons k v tl) (ind + 2) ++
          ('\n' :: indentChars ind ++ '}' :: rest))) =
          '"' :: membersText (.cons k v tl) (ind + 2)
            ('\n' :: indentChars ind ++ '}' :: rest) := by
        rw [skipWs_newline,
          dumpMembers_expose (.cons k v tl) (ind + 2) _ (fun hc => JObj.noConfusion hc),
          skipWs_indent, skipWs_nonws '"' _ (by decide)]
      rw [hd, parseStep_lbrace_cont f _ _ hY]
      have hfm : mweight (.cons k v tl) ≤ f := by
        simp only [jweight] at hf
        omega
      exact rt_members (.cons k v tl) .nil (ind + 2) ind f rest hw2.1 hw2.2 hfm
        (fun hc => JObj.noConfusion hc) (fun k' _ => rfl)

theorem rt_arrLoop : ∀ (xs : JArr) (acc : JArr) (ind ind0 fuel : Nat) (rest : List Char),
    wfItems xs = true → aweight xs ≤ fuel → xs ≠ .nil →
    parseStep fuel (.arrLoop acc)
      (itemsText xs ind ('\n' :: indentChars ind0 ++ ']' :: rest)) =
      .ok (.arr (acc.append xs), rest)
  | .nil, _, _, _, _, _, _, _, hne => absurd rfl hne
  | .cons x tl, acc, ind, ind0, fuel, rest, hw, hf, _ => by
    have hw2 : wfJ x = true ∧ wfItems tl = true := by
      simpa [wfItems, Bool.and_eq_true] using hw
    cases fuel with
    | zero =>
      simp only [aweight] at hf
      omega
    | succ f =>
      have hfx : jweight x ≤ f := by
        simp only [aweight] at hf
        omega
      cases tl with
      | nil =>
        have hit : itemsText (.cons x .nil) ind ('\n' :: indentChars ind0 ++ ']' :: rest) =
            dumpV x ind ++ ('\n' :: indentChars ind0 ++ ']' :: rest) := rfl
        have hval := rt_val x ind f ('\n' :: indentChars ind0 ++ ']' :: rest) hw2.1 hfx
        have hr : skipWs ('\n' :: indentChars ind0 ++ ']' :: rest) = ']' :: rest := by
          rw [show ('\n' :: indentChars ind0 ++ ']' :: rest : List Char) =
            '\n' :: (indentChars ind0 ++ ']' :: rest) from rfl]
          rw [skipWs_newline, skipWs_indent, skipWs_nonws ']' rest (by decide)]
        rw [hit, arrLoop_close f acc _ x _ rest hval hr, JArr.snoc_eq]
      | cons y tl2 =>
        have hit : itemsText (.cons x (.cons y tl2)) ind
            ('\n' :: indentChars ind0 ++ ']' :: rest) =
            dumpV x ind ++ (',' :: '\n' :: indentChars ind ++
              itemsText (.cons y tl2) ind ('\n' :: indentChars ind0 ++ ']' :: rest)) := rfl
        have hval := rt_val x ind f (',' :: '\n' :: indentChars ind ++
          itemsText (.cons y tl2) ind ('\n' :: indentChars ind0 ++ ']' :: rest)) hw2.1 hfx
        have hr : skipWs (',' :: '\n' :: indentChars ind ++
            itemsText (.cons y tl2) ind ('\n' :: indentChars ind0 ++ ']' :: rest)) =
            ',' :: ('\n' :: indentChars ind ++
              itemsText (.cons y tl2) ind ('\n' :: indentChars ind0 ++ ']' :: rest)) :=
          skipWs_nonws ',' _ (by decide)
        have hwy : wfJ y = true := by
          have := hw2.2
          simp only [wfItems, Bool.and_eq_true] at this
          exact this.1
        have hsk : skipWs ('\n' :: indentChars ind ++
            itemsText (.cons y tl2) ind ('\n' :: indentChars ind0 ++ ']' :: rest)) =
            itemsText (.cons y tl2) ind ('\n' :: indentChars ind0 ++ ']' :: rest) := by
          rw [show ('\n' :: indentChars ind ++
            itemsText (.cons y tl2) ind ('\n' :: indentChars ind0 ++ ']' :: rest) : List Char) =
            '\n' :: (indentChars ind ++
              itemsText (.cons y tl2) ind ('\n' :: indentChars ind0 ++ ']' :: rest)) from rfl]
          rw [skipWs_newline, skipWs_indent, itemsText_cons, skipWs_dump y hwy ind _,
            ← itemsText_cons]
        rw [hit, arrLoop_comma f acc _ x _ _ hval hr, hsk]
        have hfa : aweight (.cons y tl2) ≤ f := by
          simp only [aweight] at hf ⊢
          omega
        rw [rt_arrLoop (.cons y tl2) (acc.snoc x) ind ind0 f rest hw2.2 hfa
          (fun hc => JArr.noConfusion hc), JArr.snoc_append]

theorem rt_members : ∀ (kvs : JObj) (acc : JObj) (ind ind0 fuel : Nat) (rest : List Char),
    wfMembers kvs = true → keysUnique kvs = true → mweight kvs ≤ fuel → kvs ≠ .nil →
    (∀ k ∈ JObj.keys kvs, (JObj.keys acc).contains k = false) →
    parseStep fuel (.objMembers acc)
      (membersText kvs ind ('\n' :: indentChars ind0 ++ '}' :: rest)) =
      .ok (.obj (acc.append kvs), rest)
  | .nil, _, _, _, _, _, _, _, _, hne, _ => absurd rfl hne
  | .cons k v tl, acc, ind, ind0, fuel, rest, hw, hku, hf, _, hfresh => by
    have hw2 : wfJ v = true ∧ wfMembers tl = true := by
      simpa [wfMembers, Bool.and_eq_true] using hw
    have hku2 : (JObj.keys tl).contains k = false ∧ keysUnique tl = true := by
      simpa [keysUnique, Bool.and_eq_true] using hku
    have hkfresh : (JObj.keys acc).contains k = false :=
      hfresh k (by simp [JObj.keys])
    cases fuel with
    | zero =>
      simp only [mweight] at hf
      omega
    | succ f =>
      have hfv : jweight v ≤ f := by
        simp only [mweight] at hf
        omega
      cases tl with
      | nil =>
        have hmt : membersText (.cons k v .nil) ind ('\n' :: indentChars ind0 ++ '}' :: rest) =
            encBody k.toList ++ '"' :: ':' :: ' ' ::
              (dumpV v ind ++ ('\n' :: indentChars ind0 ++ '}' :: rest)) := by
          rw [membersText_cons]
          simp [List.append_assoc, List.cons_append]
        have hval : parseStep f .val
            (skipWs (dumpV v ind ++ ('\n' :: indentChars ind0 ++ '}' :: rest))) =
            .ok (v, '\n' :: indentChars ind0 ++ '}' :: rest) := by
          rw [skipWs_dump v hw2.1 ind _]
          exact rt_val v ind f _ hw2.1 hfv
        have hr : skipWs ('\n' :: indentChars ind0 ++ '}' :: rest) = '}' :: rest := by
          rw [show ('\n' :: indentChars ind0 ++ '}' :: rest : List Char) =
            '\n' :: (indentChars ind0 ++ '}' :: rest) from rfl]
          rw [skipWs_newline, skipWs_indent, skipWs_nonws '}' rest (by decide)]
        rw [hmt, objMembers_close f acc k _ v _ rest hval hr,
          JObj.insert_fresh acc k v hkfresh]
      | cons k2 v2 tl2 =>
        have hmt : membersText (.cons k v (.cons k2 v2 tl2)) ind
            ('\n' :: indentChars ind0 ++ '}' :: rest) =
            encBody k.toList ++ '"' :: ':' :: ' ' ::
              (dumpV v ind ++ (',' :: '\n' :: indentChars ind ++ '"' ::
                membersText (.cons k2 v2 tl2) ind
                  ('\n' :: indentChars ind0 ++ '}' :: rest))) := by
          rw [membersText_cons]
          simp [List.append_assoc, List.cons_append]
        have hval : parseStep f .val
            (skipWs (dumpV v ind ++ (',' :: '\n' :: indentChars ind ++ '"' ::
              membersText (.cons k2 v2 tl2) ind
                ('\n' :: indentChars ind0 ++ '}' :: rest)))) =
            .ok (v, ',' :: '\n' :: indentChars ind ++ '"' ::
              membersText (.cons k2 v2 tl2) ind
                ('\n' :: indentChars ind0 ++ '}' :: rest)) := by
          rw [skipWs_dump v hw2.1 ind _]
          exact rt_val v ind f _ hw2.1 hfv
        have hr : skipWs (',' :: '\n' :: indentChars ind ++ '"' ::
            membersText (.cons k2 v2 tl2) ind ('\n' :: indentChars ind0 ++ '}' :: rest)) =
            ',' :: ('\n' :: indentChars ind ++ '"' ::
              membersText (.cons k2 v2 tl2) ind ('\n' :: indentChars ind0 ++ '}' :: rest)) :=
          skipWs_nonws ',' _ (by decide)
        have hq : skipWs ('\n' :: indentChars ind ++ '"' ::
            membersText (.cons k2 v2 tl2) ind ('\n' :: indentChars ind0 ++ '}' :: rest)) =
            '"' :: membersText (.cons k2 v2 tl2) ind
              ('\n' :: indentChars ind0 ++ '}' :: rest) := by
          rw [show ('\n' :: indentChars ind ++ '"' ::
            membersText (.cons k2 v2 tl2) ind ('\n' :: indentChars ind0 ++ '}' :: rest) :
              List Char) =
            '\n' :: (indentChars ind ++ '"' ::
              membersText (.cons k2 v2 tl2) ind ('\n' :: indentChars ind0 ++ '}' :: rest))
            from rfl]
          rw [skipWs_newline, skipWs_indent, skipWs_nonws '"' _ (by decide)]
        rw [hmt, objMembers_comma f acc k _ v _ _ _ hval hr hq,
          JObj.insert_fresh acc k v hkfresh]
        have hfm : mweight (.cons k2 v2 tl2) ≤ f := by
          simp only [mweight] at hf ⊢
          omega
        have hfresh2 : ∀ k' ∈ JObj.keys (.cons k2 v2 tl2),
            (JObj.keys (acc.append (.cons k v .nil))).contains k' = false := by
          intro k' hk'
          have h1 : (JObj.keys acc).contains k' = false :=
            hfresh k' (show k' ∈ k :: JObj.keys (.cons k2 v2 tl2) from
              List.mem_cons_of_mem _ hk')
          have h2 : ¬ k = k' := by
            intro he
            subst he
            have : ¬ k ∈ JObj.keys (.cons k2 v2 tl2) := by simpa using hku2.1
            exact this hk'
          have h1b : ¬ k' ∈ JObj.keys acc := by simpa using h1
          have h3 : ¬ k' ∈ (JObj.keys acc ++ [k]) := by
            simp only [List.mem_append, List.mem_singleton]
            rintro (hc | hc)
            · exact h1b hc
            · exact h2 hc.symm
          rw [JObj.keys_append]
          show (JObj.keys acc ++ [k]).contains k' = false
          simpa using h3
        rw [rt_members (.cons k2 v2 tl2) (acc.append (.cons k v .nil)) ind ind0 f rest
          hw2.2 hku2.2 hfm (fun hc => JObj.noConfusion hc) hfresh2,
          JObj.append_single]

end

mutual

theorem jweight_le_dump : ∀ (v : Json) (ind : Nat), wfJ v = true →
    jweight v + 1 ≤ 2 * (dumpV v ind).length
  | .null, ind, _ => by simp [jweight, dumpV]
  | .bool true, ind, _ => by simp [jweight, dumpV]
  | .bool false, ind, _ => by simp [jweight, dumpV]
  | .num n, _, hw => by simp [wfJ] at hw
  | .float raw, _, hw => by simp [wfJ] at hw
  | .str s, ind, _ => by
    simp only [jweight, dumpV, encodeString, List.length_cons, List.length_append]
    omega
  | .arr .nil, ind, _ => by simp [jweight, aweight, dumpV]
  | .arr (.cons x tl), ind, hw => by
    have hwi : wfItems (.cons x tl) = true := by simpa [wfJ] using hw
    have h1 := aweight_le_dump (.cons x tl) (ind + 2) hwi
    simp only [jweight, dumpV, List.length_cons, List.length_append] at h1 ⊢
    omega
  | .obj .nil, ind, _ => by simp [jweight, mweight, dumpV]
  | .obj (.cons k v tl), ind, hw => by
    have hwm : wfMembers (.cons k v tl) = true := by
      have h2 : wfMembers (.cons k v tl) = true ∧ keysUnique (.cons k v tl) = true := by
        simpa [wfJ, Bool.and_eq_true] using hw
      exact h2.1
    have h1 := mweight_le_dump (.cons k v tl) (ind + 2) hwm
    simp only [jweight, dumpV, List.length_cons, List.length_append] at h1 ⊢
    omega

theorem aweight_le_dump : ∀ (xs : JArr) (ind : Nat), wfItems xs = true →
    aweight xs ≤ 2 * (dumpItems xs ind).length
  | .nil, _, _ => by simp [aweight, dumpItems]
  | .cons x tl, ind, hw => by
    have hw2 : wfJ x = true ∧ wfItems tl = true := by
      simpa [wfItems, Bool.and_eq_true] using hw
    have h1 := jweight_le_dump x ind hw2.1
    have h2 := aweight_le_dump tl ind hw2.2
    cases tl with
    | nil =>
      simp only [aweight, dumpItems, List.length_append, List.length_cons, List.length_nil,
        List.append_nil] at h2 ⊢
      omega
    | cons y tl2 =>
      simp only [aweight, dumpItems, List.length_append, List.length_cons,
        List.length_nil] at h2 ⊢
      omega

theorem mweight_le_dump : ∀ (kvs : JObj) (ind : Nat), wfMembers kvs = true →
    mweight kvs ≤ 2 * (dumpMembers kvs ind).length
  | .nil, _, _ => by simp [mweight, dumpMembers]
  | .cons k v tl, ind, hw => by
    have hw2 : wfJ v = true ∧ wfMembers tl = true := by
      simpa [wfMembers, Bool.and_eq_true] using hw
    have h1 := jweight_le_dump v ind hw2.1
    have h2 := mweight_le_dump tl ind hw2.2
    cases tl with
    | nil =>
      simp only [mweight, dumpMembers, encodeString, List.length_append, List.length_cons,
        List.length_nil, List.append_nil] at h2 ⊢
      omega
    | cons k2 v2 tl2 =>
      simp only [mweight, dumpMembers, encodeString, List.length_append, List.length_cons,
        List.length_nil] at h2 ⊢
      omega

end

/-- The serializer/parser round trip on documents in the image of this
program's serialization. -/
theorem loads_dumps (v : Json) (h : wfJ v = true) :
    json_loads (String.mk (dumpV v 0)) = .ok v := by
  unfold json_loads json_loads_list
  have htl : (String.mk (dumpV v 0)).toList = dumpV v 0 := rfl
  rw [htl]
  have hsk : skipWs (dumpV v 0) = dumpV v 0 := by
    have h2 := skipWs_dump v h 0 []
    rwa [List.append_nil] at h2
  rw [hsk]
  have hfuel : jweight v ≤ 2 * (dumpV v 0).length + 2 := by
    have := jweight_le_dump v 0 h
    omega
  have hval := rt_val v 0 (2 * (dumpV v 0).length + 2) [] h hfuel
  rw [List.append_nil] at hval
  show (match parseStep (2 * (dumpV v 0).length + 2) PMode.val (dumpV v 0) with
    | Except.error e => Except.error e
    | Except.ok (v, rest) =>
      if skipWs rest = [] then Except.ok v else Except.error "Extra data") = Except.ok v
  rw [hval]
  rfl

theorem wfItems_ofList : ∀ (l : List Json), (∀ v ∈ l, wfJ v = true) →
    wfItems (JArr.ofList l) = true
  | [], _ => rfl
  | v :: rest, h => by
    simp only [JArr.ofList, wfItems, Bool.and_eq_true]
    exact ⟨h v (List.mem_cons_self v rest),
      wfItems_ofList rest (fun v' hv' => h v' (List.mem_cons_of_mem v hv'))⟩

theorem wfJ_entry (p : SavedEntry) : wfJ (SavedEntry.toJson p) = true := rfl

theorem wf_pendingDoc (now : String) (entries : List SavedEntry) :
    wfJ (pendingDoc now entries) = true := by
  have harr : wfItems (JArr.ofList (entries.map SavedEntry.toJson)) = true :=
    wfItems_ofList _ (fun v hv => by
      obtain ⟨p, _, hp⟩ := List.mem_map.mp hv
      rw [← hp]
      exact wfJ_entry p)
  show (wfMembers _ && keysUnique _) = true
  simp [wfMembers, keysUnique, wfJ, harr, JObj.keys]

theorem JArr.toList_ofList : ∀ (l : List Json), (JArr.ofList l).toList = l
  | [] => rfl
  | v :: rest => by simp [JArr.ofList, JArr.toList, JArr.toList_ofList rest]

theorem loadItems_map : ∀ (entries : List SavedEntry),
    loadItems (entries.map SavedEntry.toJson) = .ok (entries.map loadedEntry)
  | [] => rfl
  | p :: rest => by
    show (loadItems (rest.map SavedEntry.toJson)).map _ = _
    rw [loadItems_map rest]
    rfl

theorem save_projection_length (account_name : String) (emails : List EmailData)
    (results : List ResultDict) :
    (save_projection account_name emails results).length =
      (results.filter (fun r => (emailLookup emails r.email_id).isSome)).length := by
  unfold save_projection
  induction results with
  | nil => rfl
  | cons r rest ih =>
    cases h : emailLookup emails r.email_id <;>
      simp [List.filter_cons, List.filterMap_cons, h, ih]

theorem load_pending_doc (now now2 : String) (fromiso : String → Option String)
    (entries : List SavedEntry) :
    load_pending (some (String.mk (dumpV (pendingDoc now entries) 0))) now2 fromiso =
      .ok (some { created_at := (fromiso now).getD now2,
                  results := entries.map loadedEntry }) := by
  have hload := loads_dumps (pendingDoc now entries) (wf_pendingDoc now entries)
  unfold load_pending
  simp only [hload]
  simp only [pendingDoc]
  simp [JObj.get, iterResults, JArr.toList_ofList, loadItems_map]

/-- C3 (amended): `save_pending` followed by `load_pending` reconstructs a
`PendingResults` whose results are exactly the saved projection — one entry
per result whose `email_id` matches an email in the list (the length
equality below), with `account`, `email_id`, `skip`, `subject` and `sender`
equal to the projection and the category string put through enum validation
(a string outside the enumeration loads as `FYI` — the correction forced by
the counterexample); and `delete_pending` followed by `pending_exists`
returns false. -/
theorem save_load_roundtrip (account_name : String) (emails : List EmailData)
    (results : List ResultDict) (now now2 : String) (fromiso : String → Option String) :
    load_pending (some (save_pending account_name emails results now)) now2 fromiso =
      .ok (some { created_at := (fromiso now).getD now2,
                  results := (save_projection account_name emails results).map loadedEntry }) ∧
    ((save_projection account_name emails results).map loadedEntry).length =
      (results.filter (fun r => (emailLookup emails r.email_id).isSome)).length ∧
    (∀ st : Option String, pending_exists (delete_pending st) = false) := by
  refine ⟨?_, ?_, fun st => rfl⟩
  · unfold save_pending
    exact load_pending_doc now now2 fromiso (save_projection account_name emails results)
  · rw [List.length_map]
    exact save_projection_length account_name emails results

/-- C3 counterexample: a result whose category string `"WAT"` is outside the
enumeration round-trips to an entry with category `FYI`, so the loaded
fields are not equal to the saved projection (whose category is `"WAT"`);
the claim as stated fails on this input. -/
theorem save_load_category_cex :
    load_pending (some (save_pending "acct" [email3] results3 "2026-01-01T00:00:00"))
      "2026-01-02T00:00:00" some =
      .ok (some ⟨"2026-01-01T00:00:00",
        [⟨"acct", "a", Category.FYI, false, "Héllo wörld", "s@x.com"⟩]⟩) ∧
    (save_projection "acct" [email3] results3).map (fun p => p.category) = ["WAT"] :=
  ⟨rfl, rfl⟩

/-- C10: every result produced by `classify_single_email` — on the success
path as well as the failure path — has `skip = false`; the classifier never
marks an email as skipped. -/
theorem classify_skip_always_false (email : EmailData) (model : String)
    (chat : String → String → Except String String) :
    (classify_single_email email model chat).skip = false := by
  cases h : chat model (build_classification_prompt email) with
  | error e => simp [classify_single_email, h]
  | ok content =>
    cases h2 : parse_classification_response content with
    | error e => simp [classify_single_email, h, h2]
    | ok p =>
      obtain ⟨c, r⟩ := p
      simp [classify_single_email, h, h2]

/-- C1 (amended): for every input, when the strip-slice-decode pipeline fails
(malformed or empty input included), `parse_classification_response` returns
`(FYI, diagnostic)` with a non-empty diagnostic reason and does not raise;
when the decode yields an object it returns a valid pair; but when the decode
succeeds with a non-object JSON value the function raises `AttributeError`
(so, contrary to the claim, it does not return on every input). -/
theorem parse_classification_fallback_or_raises (s : String) :
    (∀ e, parseAttemptCore s = .error e →
      parse_classification_response s = .ok (Category.FYI, "Failed to parse response: " ++ e) ∧
        ("Failed to parse response: " ++ e) ≠ "") ∧
    (∀ kvs, parseAttemptCore s = .ok (.obj kvs) →
      ∃ c r, parse_classification_response s = .ok (c, r)) ∧
    (∀ v, parseAttemptCore s = .ok v → (∀ kvs, v ≠ .obj kvs) →
      parse_classification_response s =
        .error ("AttributeError: " ++ pyTypeName v ++ " object has no attribute get")) := by
  refine ⟨fun e he => ?_, fun kvs hkvs => ?_, fun v hv hno => ?_⟩
  · constructor
    · unfold parse_classification_response
      rw [he]
    · intro h
      have h2 := congrArg String.length h
      rw [String.length_append] at h2
      have h3 : ("Failed to parse response: ").length = 26 := rfl
      have h4 : ("" : String).length = 0 := rfl
      omega
  · unfold parse_classification_response
    rw [hkvs]
    cases hcat : categoryOfJson ((kvs.get "category").getD (.str "FYI")) with
    | none =>
      exact ⟨Category.FYI, "Unknown category: " ++ pyStr ((kvs.get "category").getD (.str "FYI")),
        by simp [hcat]⟩
    | some c =>
      exact ⟨c, pyStr ((kvs.get "reason").getD (.str "")), by simp [hcat]⟩
  · unfold parse_classification_response
    rw [hv]
    cases v with
    | obj kvs => exact absurd rfl (hno kvs)
    | null => rfl
    | bool b => rfl
    | num n => rfl
    | float raw => rfl
    | str s => rfl
    | arr xs => rfl

/-- C1 witness: the empty input yields the non-empty diagnostic fallback, and
the input `"3"` (valid JSON, not an object) raises. -/
theorem parse_classification_fallback_witness :
    parse_classification_response "" =
      .ok (Category.FYI, "Failed to parse response: Expecting value") ∧
    parse_classification_response "3" =
      .error "AttributeError: int object has no attribute get" :=
  ⟨((parse_classification_fallback_or_raises "").1 "Expecting value" rfl).1,
   (parse_classification_fallback_or_raises "3").2.2 (.num 3) rfl
     (fun _ h => Json.noConfusion h)⟩

/-- C1 counterexample: on the input `"3"` — valid JSON whose value is not an
object — `data.get` raises `AttributeError`, which the function's
`except (json.JSONDecodeError, ValueError)` clause does not catch, so the
function does raise, contradicting the claim. -/
theorem parse_classification_raises_cex :
    parse_classification_response "3" =
      .error "AttributeError: int object has no attribute get" := rfl

/-- C6 (amended): `load_pending` returns `null` when the file is absent and
when its content fails JSON decoding; an object with missing fields loads as
a defaulted `PendingResults` (not `null`); but content decoding to a
non-object JSON value raises (see the counterexample), contrary to the
claim's "returns null rather than raising". -/
theorem load_pending_null_or_raises (now : String) (fromiso : String → Option String) :
    (∀ content e, json_loads content = .error e →
      load_pending (some content) now fromiso = .ok none) ∧
    load_pending none now fromiso = .ok none ∧
    load_pending (some "\x7b\x7d") now fromiso =
      .ok (some { created_at := (fromiso "").getD now, results := [] }) := by
  refine ⟨fun content e he => ?_, rfl, rfl⟩
  simp [load_pending, he]

/-- C6 witness: undecodable content and an absent file both yield `null`. -/
theorem load_pending_null_witness :
    load_pending (some "not json") "T" (fun _ => none) = .ok none ∧
    load_pending none "T" (fun _ => none) = .ok none :=
  ⟨(load_pending_null_or_raises "T" (fun _ => none)).1 "not json" "Expecting value" rfl,
   (load_pending_null_or_raises "T" (fun _ => none)).2.1⟩

/-- C6 counterexample: a pending file containing `[]` decodes fine, but
`data.get("results", [])` then raises `AttributeError`, which the
`except (json.JSONDecodeError, KeyError)` clause does not catch — so on this
corrupted content `load_pending` raises instead of returning `null`. -/
theorem load_pending_raises_cex :
    load_pending (some "[]") "T" (fun _ => none) =
      .error "AttributeError: list object has no attribute get" := rfl

/-- C8 (amended): with one NEEDS_REPLY email and one ARCHIVE email the report
contains the header section `"NEEDS REPLY (1 email):"` (underscores replaced
by spaces, case preserved — not the claim's `"Needs Reply (1 email):"`) and
the count-only line `"ARCHIVE: 1 email"`; no bullet is emitted for the
archive entry, and the single inference call made is the NEEDS_REPLY summary
prompt — none is made for ARCHIVE or IGNORE. -/
theorem generate_summaries_report :
    strContains (generate_summaries [email8a, email8b] results8 "m" chatDown8).1
      "NEEDS REPLY (1 email):" ∧
    strContains (generate_summaries [email8a, email8b] results8 "m" chatDown8).1
      "ARCHIVE: 1 email" ∧
    ¬ strContains (generate_summaries [email8a, email8b] results8 "m" chatDown8).1
      "carol" ∧
    ¬ strContains (generate_summaries [email8a, email8b] results8 "m" chatDown8).1
      "Weekly digest" ∧
    (generate_summaries [email8a, email8b] results8 "m" chatDown8).2 =
      [build_summary_prompt [email8a]] := by
  refine ⟨by decide, by decide, by decide, by decide, rfl⟩

/-- C8 counterexample: the report of that scenario does not contain the
claim's literal header `"Needs Reply (1 email):"` — the code renders the
category name with underscores replaced by spaces but the case unchanged. -/
theorem generate_summaries_header_cex :
    ¬ strContains (generate_summaries [email8a, email8b] results8 "m" chatDown8).1
      "Needs Reply (1 email):" := by decide

theorem applyStep_foldl (label_ids : List (String × String)) (env : ApplyEnv) :
    ∀ (results : List ActionItem) (acc : Nat × List ApplyCall),
      results.foldl (applyStep label_ids env) acc =
        (acc.1 + ((callsFor label_ids env results).filter (fun c => c.ok)).length,
         acc.2 ++ callsFor label_ids env results) := by
  intro results
  induction results with
  | nil => intro acc; simp [callsFor]
  | cons r rest ih =>
    intro acc
    rw [List.foldl_cons, ih]
    cases hsk : r.skip with
    | true => simp [applyStep, hsk, callsFor]
    | false =>
      by_cases hl : ((assocGet label_ids r.category).getD "") = ""
      · simp [applyStep, hsk, hl, callsFor]
      · by_cases he : r.email_id = ""
        · simp [applyStep, hsk, hl, he, callsFor]
        · have hcalls : callsFor label_ids env (r :: rest) =
              mkApplyCall label_ids env r :: callsFor label_ids env rest := by
            simp [callsFor, List.filter_cons, hsk, hl, he]
          have hstep : applyStep label_ids env acc r =
              (acc.1 + (if (mkApplyCall label_ids env r).ok then 1 else 0),
               acc.2 ++ [mkApplyCall label_ids env r]) := by
            simp [applyStep, hsk, hl, he, mkApplyCall]
          rw [hstep, hcalls]
          rw [Prod.ext_iff]
          constructor
          · simp only [List.filter_cons]
            cases hok : (mkApplyCall label_ids env r).ok
            · simp [hok]
            · simp [hok]
              omega
          · simp

theorem apply_actions_count (config : Config) (account_name : String)
    (results : List ActionItem) (env : ApplyEnv) :
    (apply_actions config account_name results env).1 =
      ((apply_actions config account_name results env).2.filter (fun c => c.ok)).length := by
  unfold apply_actions
  by_cases h : config.accounts.contains account_name = true
  · rw [if_pos h, applyStep_foldl]
    simp
  · rw [if_neg h]
    rfl

theorem apply_actions_calls (config : Config) (account_name : String)
    (results : List ActionItem) (env : ApplyEnv) :
    (apply_actions config account_name results env).2 =
      (if config.accounts.contains account_name then
        callsFor (buildLabelIds config.labels env) env results
      else []) := by
  unfold apply_actions
  by_cases h : config.accounts.contains account_name = true
  · rw [if_pos h, if_pos h, applyStep_foldl]
    simp
  · rw [if_neg h, if_neg h]

/-- C5: during application, `skip = true` entries are never passed to the
Action Applier and entries without a resolvable label id (or with an empty
email id) are silently dropped — the calls made are exactly the filtered
entries, with `should_archive` true exactly for the `ARCHIVE` and `IGNORE`
categories — and the applied count counts only the successful calls. -/
theorem apply_actions_spec (config : Config) (account_name : String)
    (results : List ActionItem) (env : ApplyEnv) :
    (apply_actions config account_name results env).2 =
      (if config.accounts.contains account_name then
        callsFor (buildLabelIds config.labels env) env results
      else []) ∧
    (apply_actions config account_name results env).1 =
      ((apply_actions config account_name results env).2.filter (fun c => c.ok)).length :=
  ⟨apply_actions_calls config account_name results env,
   apply_actions_count config account_name results env⟩

theorem pendingStep_foldl (config : Config) (env : ApplyEnv) :
    ∀ (groups : List (String × List ActionItem)) (acc : Nat × List (String × List ApplyCall)),
      groups.foldl (pendingStep config env) acc =
        (acc.1 + ((pendingTrace config env groups).map
            (fun p => (p.2.filter (fun c => c.ok)).length)).sum,
         acc.2 ++ pendingTrace config env groups) := by
  intro groups
  induction groups with
  | nil => intro acc; simp [pendingTrace]
  | cons g rest ih =>
    intro acc
    rw [List.foldl_cons, ih]
    by_cases h : config.accounts.contains g.1 = true
    · have h2 : g.1 ∈ config.accounts := by simpa using h
      have hstep : pendingStep config env acc g =
          (acc.1 + (apply_actions config g.1 g.2 env).1,
           acc.2 ++ [(g.1, (apply_actions config g.1 g.2 env).2)]) := by
        simp [pendingStep, h, h2]
      have htr : pendingTrace config env (g :: rest) =
          (g.1, (apply_actions config g.1 g.2 env).2) :: pendingTrace config env rest := by
        simp [pendingTrace, List.filter_cons, h, h2]
      rw [hstep, htr]
      rw [Prod.ext_iff]
      constructor
      · simp only [List.map_cons, List.sum_cons]
        rw [apply_actions_count config g.1 g.2 env]
        omega
      · simp
    · have h2 : ¬ g.1 ∈ config.accounts := by simpa using h
      have hstep : pendingStep config env acc g = acc := by simp [pendingStep, h, h2]
      have htr : pendingTrace config env (g :: rest) = pendingTrace config env rest := by
        simp [pendingTrace, List.filter_cons, h, h2]
      rw [hstep, htr]

/-- C4: `apply_pending` deletes the pending snapshot unconditionally (so
`pending_exists` is false afterwards), delegates only to accounts present in
the configuration (absent accounts are skipped, and the function is total —
nothing is thrown), and its return value counts exactly the successfully
applied entries across those delegations. -/
theorem apply_pending_spec (pending : PendingResults) (config : Config)
    (env : ApplyEnv) (store : Option String) :
    pending_exists (apply_pending pending config env store).2.1 = false ∧
    (∀ p ∈ (apply_pending pending config env store).2.2,
      config.accounts.contains p.1 = true) ∧
    (apply_pending pending config env store).1 =
      ((apply_pending pending config env store).2.2.map
        (fun p => (p.2.filter (fun c => c.ok)).length)).sum := by
  refine ⟨rfl, ?_, ?_⟩
  · intro p hp
    have h2 : (apply_pending pending config env store).2.2 =
        pendingTrace config env (groupByAccount pending.results) := by
      unfold apply_pending
      rw [pendingStep_foldl]
      simp
    rw [h2] at hp
    unfold pendingTrace at hp
    obtain ⟨q, hq, hqp⟩ := List.mem_map.mp hp
    have := List.of_mem_filter hq
    simp only [← hqp]
    simpa using this
  · show ((groupByAccount pending.results).foldl (pendingStep config env) (0, [])).1 = _
    rw [pendingStep_foldl]
    have h2 : (apply_pending pending config env store).2.2 =
        pendingTrace config env (groupByAccount pending.results) := by
      unfold apply_pending
      rw [pendingStep_foldl]
      simp
    rw [h2]
    simp

/-- C4 witness: a pending set over a configured account and a missing one —
the snapshot is deleted and the (single) traced delegation is to the
configured account. -/
theorem apply_pending_spec_witness :
    pending_exists (apply_pending pendingW configW envW (some "x")).2.1 = false ∧
    configW.accounts.contains
      ((apply_pending pendingW configW envW (some "x")).2.2.headD ("", [])).1 = true :=
  ⟨(apply_pending_spec pendingW configW envW (some "x")).1,
   (apply_pending_spec pendingW configW envW (some "x")).2.1 _ (by decide)⟩

theorem classify_single_email_id (email : EmailData) (model : String)
    (chat : String → String → Except String String) :
    (classify_single_email email model chat).email_id = email.id := by
  cases h : chat model (build_classification_prompt email) with
  | error e => simp [classify_single_email, h]
  | ok content =>
    cases h2 : parse_classification_response content with
    | error e => simp [classify_single_email, h, h2]
    | ok p =>
      obtain ⟨c, r⟩ := p
      simp [classify_single_email, h, h2]

theorem classify_single_email_fail (email : EmailData) (model : String)
    (chat : String → String → Except String String) (m : String)
    (h : chat model (build_classification_prompt email) = .error m) :
    classify_single_email email model chat =
      { email_id := email.id, category := "FYI",
        reason := "Classification failed: " ++ m, skip := false } := by
  simp [classify_single_email, h, Category.value]

/-- C2: `classify_emails` returns exactly one result per input email, in
input order, keyed by the corresponding email's id (so distinct input ids
give distinct keys); an email whose inference call raises gets category
`FYI`, reason `"Classification failed: <error message>"` and `skip = false`;
and if the backend raises for every call, every result has category `FYI`. -/
theorem classify_emails_shape (emails : List EmailData) (model : String)
    (chat : String → String → Except String String) :
    (classify_emails emails model chat).length = emails.length ∧
    (classify_emails emails model chat).map (fun r => r.email_id) =
      emails.map (fun e => e.id) ∧
    List.Forall₂ (fun e r => ∀ m, chat model (build_classification_prompt e) = .error m →
        r = { email_id := e.id, category := "FYI",
              reason := "Classification failed: " ++ m, skip := false })
      emails (classify_emails emails model chat) ∧
    ((∀ e ∈ emails, ∃ m, chat model (build_classification_prompt e) = .error m) →
      ∀ r ∈ classify_emails emails model chat, r.category = "FYI") := by
  refine ⟨by simp [classify_emails], ?_, ?_, ?_⟩
  · induction emails with
    | nil => rfl
    | cons e rest ih =>
      simp only [classify_emails, List.map_cons, classify_single_email_id, List.cons.injEq,
        true_and]
      exact ih
  · induction emails with
    | nil => exact .nil
    | cons e rest ih =>
      exact .cons (fun m hm => classify_single_email_fail e model chat m hm) ih
  · intro h r hr
    induction emails with
    | nil => simp [classify_emails] at hr
    | cons e rest ih =>
      simp only [classify_emails, List.map_cons, List.mem_cons] at hr
      cases hr with
      | inl hr =>
        obtain ⟨m, hm⟩ := h e (List.mem_cons_self e rest)
        rw [hr, classify_single_email_fail e model chat m hm]
      | inr hr =>
        exact ih (fun e' he' => h e' (List.mem_cons_of_mem e he')) hr

/-- C2 witness: one email, a backend that always raises `Connection error`. -/
theorem classify_emails_shape_witness :
    ((classify_emails [emailW] "m" chatFailW).headD
      { email_id := "", category := "", reason := "", skip := false }).category = "FYI" :=
  (classify_emails_shape [emailW] "m" chatFailW).2.2.2
    (fun _ _ => ⟨"Connection error", rfl⟩) _ (by decide)

/-- C7: the literal input `{"category": "NEEDS_REPLY", "reason": "r"}`
parses to exactly `(NEEDS_REPLY, "r")` — and in general any input decoding
to an object with those two fields parses to that exact pair; and any input
decoding to an object whose category string is outside the five-value
enumeration parses to `FYI` with a reason containing the offending value. -/
theorem parse_valid_category_spec :
    (parse_classification_response
        "\x7b\"category\": \"NEEDS_REPLY\", \"reason\": \"r\"\x7d" =
      .ok (Category.NEEDS_REPLY, "r")) ∧
    (∀ (s : String) (kvs : JObj) (r : String),
      parseAttemptCore s = .ok (.obj kvs) →
      kvs.get "category" = some (.str "NEEDS_REPLY") →
      kvs.get "reason" = some (.str r) →
      parse_classification_response s = .ok (Category.NEEDS_REPLY, r)) ∧
    (∀ (s : String) (kvs : JObj) (c : String),
      parseAttemptCore s = .ok (.obj kvs) →
      kvs.get "category" = some (.str c) →
      Category.ofString c = none →
      parse_classification_response s = .ok (Category.FYI, "Unknown category: " ++ c) ∧
        strContains ("Unknown category: " ++ c) c) := by
  refine ⟨rfl, ?_, ?_⟩
  · intro s kvs r hcore hcat hreason
    unfold parse_classification_response
    rw [hcore]
    simp [hcat, hreason, categoryOfJson, Category.ofString, pyStr]
  · intro s kvs c hcore hcat hnone
    constructor
    · unfold parse_classification_response
      rw [hcore]
      simp [hcat, categoryOfJson, hnone, pyStr]
    · show c.toList <:+: ("Unknown category: " ++ c).toList
      have he : ("Unknown category: " ++ c).toList =
          ("Unknown category: ").toList ++ c.toList := by
        show ((("Unknown category: ") ++ c).data) = _
        rw [String.data_append]
        rfl
      rw [he]
      exact (List.suffix_append _ _).isInfix

/-- C7 witness: the category `"SPAM"` is outside the enumeration; parsing
yields `FYI` with a reason containing `"SPAM"`. -/
theorem parse_valid_category_witness :
    parse_classification_response "\x7b\"category\": \"SPAM\"\x7d" =
      .ok (Category.FYI, "Unknown category: SPAM") ∧
    strContains "Unknown category: SPAM" "SPAM" :=
  parse_valid_category_spec.2.2 "\x7b\"category\": \"SPAM\"\x7d"
    (JObj.cons "category" (.str "SPAM") .nil) "SPAM" rfl rfl rfl

theorem buildCategories_filter (emails : List EmailData) (results : List ResultDict) :
    buildCategories emails
        (results.filter (fun r => (emailLookup emails r.email_id).isSome)) =
      buildCategories emails results := by
  unfold buildCategories
  suffices h : ∀ (l : List ResultDict) (cats : List (String × List EmailData)),
      (l.filter (fun r => (emailLookup emails r.email_id).isSome)).foldl
        (fun cats r =>
          match emailLookup emails r.email_id with
          | some e => assocAppend cats r.category e
          | none => cats) cats =
      l.foldl (fun cats r =>
          match emailLookup emails r.email_id with
          | some e => assocAppend cats r.category e
          | none => cats) cats by
    exact h results []
  intro l
  induction l with
  | nil => intro cats; rfl
  | cons r rest ih =>
    intro cats
    cases h : emailLookup emails r.email_id with
    | none => simp [List.filter_cons, h, ih]
    | some e => simp [List.filter_cons, h, ih]

theorem save_projection_filter (account_name : String) (emails : List EmailData)
    (results : List ResultDict) :
    save_projection account_name emails
        (results.filter (fun r => (emailLookup emails r.email_id).isSome)) =
      save_projection account_name emails results := by
  unfold save_projection
  induction results with
  | nil => rfl
  | cons r rest ih =>
    cases h : emailLookup emails r.email_id with
    | none => simp [List.filter_cons, h, ih]
    | some e => simp [List.filter_cons, h, ih]

/-- C9: results whose `email_id` matches no email in the provided list are
silently dropped: removing them changes neither the `generate_summaries`
output (report and inference calls) nor the file `save_pending` writes — and
both functions are total on such dangling references. -/
theorem dangling_results_dropped (emails : List EmailData) (results : List ResultDict)
    (model account_name now : String) (chat : String → String → Except String String) :
    generate_summaries emails
        (results.filter (fun r => (emailLookup emails r.email_id).isSome)) model chat =
      generate_summaries emails results model chat ∧
    save_pending account_name emails
        (results.filter (fun r => (emailLookup emails r.email_id).isSome)) now =
      save_pending account_name emails results now := by
  constructor
  · unfold generate_summaries
    rw [buildCategories_filter]
  · unfold save_pending
    rw [save_projection_filter]

end GmailCleaner
